import Mathlib

/-!
# MQTT smart-lighting broker: a shallow embedding of `Broker/main.go`

The broker's wire codec, its two registries, the packet handlers, the dispatch
of `handleConnection` and the accept step of `main` are translated into Lean
functions over an explicit state, and the properties of the specification are
stated and proved (or refuted) over them. The message handler of the lamp
(`LightLamp/main.go`) is embedded as well.

Conventions of the embedding
* a Go `byte` is a `Fin 256`; a Go `int` that provably stays far below 2^63
  is a `Nat`; `byte(x)` is `toByte x`, i.e. reduction modulo 256;
* a `*bufio.Reader` is the list of bytes that are still unread; `ReadByte`
  on the empty list is the read error (end of stream);
* a `*Client` is an address (`Ptr`) into a heap of client records.
-/

namespace MqttBroker

set_option maxRecDepth 100000

/-! ## Bytes -/

/-- A Go `byte`. -/
abbrev Byte := Fin 256

/-- The Go conversion `byte(x)` of a non-negative `int`: truncation to 8 bits. -/
def toByte (x : Nat) : Byte := ⟨x % 256, Nat.mod_lt x (by decide)⟩

/-- Equality of `Except` values is decidable when it is on both sides. -/
instance instDecidableEqExcept {ε α : Type} [DecidableEq ε] [DecidableEq α] :
    DecidableEq (Except ε α)
  | .ok a, .ok b =>
    if h : a = b then isTrue (by rw [h]) else isFalse (fun h2 => h (Except.ok.inj h2))
  | .error a, .error b =>
    if h : a = b then isTrue (by rw [h]) else isFalse (fun h2 => h (Except.error.inj h2))
  | .ok _, .error _ => isFalse (fun h => Except.noConfusion h)
  | .error _, .ok _ => isFalse (fun h => Except.noConfusion h)

/-! ## `readRemainingLength` (main.go, lines 274-296) -/

/-- The two ways `readRemainingLength` fails: `reader.ReadByte()` returned
an error, or `shift >= 28` was reached. -/
inductive ReadError where
  | readByte
  | exceedsMaximum
  deriving DecidableEq, Repr

/-- The `for` loop of `readRemainingLength`, with the loop variables
`length` and `shift` as arguments and the unread bytes of the reader as
the last one. The result pairs the returned `(int, error)` with the bytes
the reader still holds afterwards. -/
def readRemainingLengthLoop (length shift : Nat) :
    List Byte → Except ReadError Nat × List Byte
  | [] => if shift ≥ 28 then (.error .exceedsMaximum, []) else (.error .readByte, [])
  | b :: rest =>
    if shift ≥ 28 then (.error .exceedsMaximum, b :: rest)
    else
      let length := length ||| ((b.val &&& 0x7F) <<< shift)
      if b.val &&& 0x80 = 0 then (.ok length, rest)
      else readRemainingLengthLoop length (shift + 7) rest

/-- The function `readRemainingLength`: `length` and `shift` start at zero. -/
def readRemainingLength (reader : List Byte) : Except ReadError Nat × List Byte :=
  readRemainingLengthLoop 0 0 reader

/-- The minimal base-128 encoding the specification describes: groups of
seven bits, least significant group first, the high bit of a byte set
exactly when more groups follow. `fuel` bounds the number of groups. -/
def encodeGroups : Nat → Nat → List Byte
  | 0, _ => []
  | fuel + 1, n =>
    if n / 128 = 0 then [toByte (n % 128)]
    else toByte (n % 128 + 128) :: encodeGroups fuel (n / 128)

/-- The minimal variable-length encoding of `n`; a number has at most as many
seven-bit groups as `n + 1`. -/
def encodeRemainingLength (n : Nat) : List Byte := encodeGroups (n + 1) n


/-! ## Connections, clients and the broker state -/

/-- A `*Client`: the address of a client record. Two clients are the same
(`sub == client` in `removeSubscription`) when their addresses are equal. -/
abbrev Ptr := Nat

/-- A topic is a Go `string`, that is, a sequence of bytes;
`string(packet[a:b])` is the slice itself. -/
abbrev Topic := List Byte

/-- A `net.Conn`, as far as the broker touches it. `written` records the
argument of every `Write` call, oldest first, whether or not the call
succeeded; `closes` counts the `Close` calls; `broken` says that the peer no
longer accepts data. -/
structure Conn where
  broken : Bool
  closes : Nat
  written : List (List Byte)
  deriving DecidableEq, Repr

/-- The Go `conn.Write(p)`: the call is recorded, and it reports an error when the
peer is gone or the connection has been closed. -/
def Conn.Write (conn : Conn) (p : List Byte) : Conn × Bool :=
  ({ conn with written := conn.written ++ [p] }, conn.broken || decide (0 < conn.closes))

/-- The Go `conn.Close()`. -/
def Conn.Close (conn : Conn) : Conn :=
  { conn with closes := conn.closes + 1 }

/-- The record `Client` (main.go, lines 27-32). `topics` lists the keys of
the `map[string]bool`, each once, in the order they were first inserted. -/
structure Client where
  conn : Conn
  clientID : String
  topics : List Topic
  deriving DecidableEq, Repr

/-- The record `Broker` (main.go, lines 40-45), without its mutexes. A map is
a partial function; `none` is an absent key. -/
structure Broker where
  clients : String → Option Ptr
  subscribers : Topic → Option (List Ptr)

/-- The lines the broker writes with `log.Printf`. -/
inductive LogEntry where
  | connected (clientID : String)
  | disconnected (clientID : String)
  | subscribed (clientID : String) (topic : Topic)
  | noSubscribers (topic : Topic)
  | publishing (topic : Topic) (payload : List Byte)
  | sendFailed (clientID : String)
  | handlingSubscribe
  | sentConnack (clientID : String)
  | disconnecting (clientID : String)
  deriving DecidableEq, Repr

/-- Everything the broker's functions read and change: the client records
behind the pointers, the broker's two maps, and the log. -/
structure State where
  heap : Ptr → Client
  broker : Broker
  log : List LogEntry

/-- The Go `NewBroker` (main.go, lines 47-52): both maps empty. -/
def NewBroker : Broker :=
  { clients := fun _ => none, subscribers := fun _ => none }

/-- The Go `log.Printf`. -/
def State.printf (st : State) (e : LogEntry) : State :=
  { st with log := st.log ++ [e] }

/-- Reading a map of slices at a key: the value, or the nil slice. -/
def lookupSubscribers (subscribers : Topic → Option (List Ptr)) (topic : Topic) : List Ptr :=
  (subscribers topic).getD []

/-- The Go `c.conn.Write(p)` on the client at address `c`, with the error flag. -/
def connWrite (c : Ptr) (p : List Byte) (st : State) : State × Bool :=
  let client := st.heap c
  let r := client.conn.Write p
  ({ st with heap := Function.update st.heap c { client with conn := r.1 } }, r.2)

/-! ## The registries (main.go, lines 54-102) -/

/-- The Go `Broker.addClient`. -/
def addClient (client : Ptr) (st : State) : State :=
  let clientID := (st.heap client).clientID
  { st with
    broker := { st.broker with
      clients := Function.update st.broker.clients clientID (some client) },
    log := st.log ++ [.connected clientID] }

/-- The Go `Broker.removeSubscription`, on the `subscribers` map: the first entry
equal to `client` is cut out of the slice under `topic`, and the key is
deleted when the slice under it is then empty. -/
def removeSubscription (topic : Topic) (client : Ptr)
    (subscribers : Topic → Option (List Ptr)) : Topic → Option (List Ptr) :=
  let subs := lookupSubscribers subscribers topic
  let subscribers1 :=
    if client ∈ subs then Function.update subscribers topic (some (subs.erase client))
    else subscribers
  if (lookupSubscribers subscribers1 topic).length = 0 then
    Function.update subscribers1 topic none
  else subscribers1

/-- The Go `Broker.removeClient`. The `range` over `client.topics` visits the keys in
the order of the list. -/
def removeClient (clientID : String) (st : State) : State :=
  match st.broker.clients clientID with
  | some client =>
    let c := st.heap client
    let subscribers :=
      c.topics.foldl (fun subs topic => removeSubscription topic client subs)
        st.broker.subscribers
    { heap := Function.update st.heap client { c with conn := c.conn.Close },
      broker := { clients := Function.update st.broker.clients clientID none,
                  subscribers := subscribers },
      log := st.log ++ [.disconnected clientID] }
  | none => st

/-- The Go `Broker.subscribe`. -/
def subscribe (topic : Topic) (client : Ptr) (st : State) : State :=
  let c := st.heap client
  { heap := Function.update st.heap client
      { c with topics := if topic ∈ c.topics then c.topics else c.topics ++ [topic] },
    broker := { st.broker with
      subscribers := Function.update st.broker.subscribers topic
        (some (lookupSubscribers st.broker.subscribers topic ++ [client])) },
    log := st.log ++ [.subscribed c.clientID topic] }

/-! ## Publishing (main.go, lines 104-154) -/

/-- The `packet` that `Client.sendPublish` builds. -/
def publishPacket (topic : Topic) (payload : List Byte) : List Byte :=
  let topicLen := topic.length
  let payloadLen := payload.length
  let remainingLen := 2 + topicLen + payloadLen
  [0x30, toByte remainingLen] ++ [toByte (topicLen >>> 8), toByte (topicLen &&& 0xFF)]
    ++ topic ++ payload

/-- The Go `Client.sendPublish`: the packet is written to the client's connection;
the flag is the returned error. -/
def sendPublish (c : Ptr) (topic : Topic) (payload : List Byte) (st : State) : State × Bool :=
  connWrite c (publishPacket topic payload) st

/-- The body of the goroutine that `publish` starts for one subscriber. -/
def deliver (topic : Topic) (payload : List Byte) (c : Ptr) (st : State) : State :=
  let r := sendPublish c topic payload st
  if r.2 then
    let clientID := (r.1.heap c).clientID
    removeClient clientID (r.1.printf (.sendFailed clientID))
  else r.1

/-- The goroutines of one `publish`, run to completion one after another in
the order `order`, for clients that the loop has already read from the slice. -/
def fanOut (topic : Topic) (payload : List Byte) (order : List Ptr) (st : State) : State :=
  order.foldl (fun s c => deliver topic payload c s) st

/-- The Go `Broker.publish`, in the schedule in which the `range` loop has read
the whole subscriber slice and started every goroutine before the first
goroutine runs; the goroutines then run in the order in which they were
started. The schedule in which a goroutine runs while the loop is still
reading the slice is `publishEager`. -/
def publish (topic : Topic) (payload : List Byte) (st : State) : State :=
  let subscribers := lookupSubscribers st.broker.subscribers topic
  if subscribers.length = 0 then st.printf (.noSubscribers topic)
  else fanOut topic payload subscribers (st.printf (.publishing topic payload))

/-! ## The packet handlers (main.go, lines 214-266) -/

/-- What stops a handler other than a `return`: a run-time panic of an index
or slice expression, or the exhaustion of the iteration budget of the model. -/
inductive Fault where
  | indexOutOfRange
  | sliceBoundsOutOfRange
  | outOfFuel
  deriving DecidableEq, Repr

/-- The index expression `packet[i]`. -/
def index (packet : List Byte) (i : Nat) : Except Fault Byte :=
  match packet[i]? with
  | some b => .ok b
  | none => .error .indexOutOfRange

/-- The slice expression `packet[lo:hi]`. -/
def slice (packet : List Byte) (lo hi : Nat) : Except Fault (List Byte) :=
  if lo ≤ hi ∧ hi ≤ packet.length then .ok ((packet.drop lo).take (hi - lo))
  else .error .sliceBoundsOutOfRange

/-- The slice expression `packet[lo:]`. -/
def sliceFrom (packet : List Byte) (lo : Nat) : Except Fault (List Byte) :=
  if lo ≤ packet.length then .ok (packet.drop lo) else .error .sliceBoundsOutOfRange

/-- The Go `Client.handlePublish`. -/
def handlePublish (packet : List Byte) (st : State) : Except Fault State :=
  if packet.length < 2 then .ok st
  else
    (index packet 0).bind fun b0 =>
    (index packet 1).bind fun b1 =>
    let topicLen := b0.val <<< 8 ||| b1.val
    if packet.length < 2 + topicLen then .ok st
    else
      (slice packet 2 (2 + topicLen)).bind fun topic =>
      (sliceFrom packet (2 + topicLen)).bind fun payload =>
      .ok (publish topic payload st)

/-- The `for pos < len(packet)` loop of `Client.handleSubscribe`, for the client
at address `c`; `fuel` bounds the number of times the loop condition is tested. -/
def handleSubscribeLoop (c : Ptr) (packet : List Byte) :
    Nat → Nat → State → Except Fault State
  | 0, _, _ => .error .outOfFuel
  | fuel + 1, pos, st =>
    if pos < packet.length then
      if pos + 2 ≥ packet.length then .ok st
      else
        (index packet pos).bind fun hi =>
        (index packet (pos + 1)).bind fun lo =>
        let topicLen := hi.val <<< 8 ||| lo.val
        let pos := pos + 2
        if pos + topicLen ≥ packet.length then .ok st
        else
          (slice packet pos (pos + topicLen)).bind fun topic =>
          let pos := pos + topicLen
          let pos := pos + 1
          handleSubscribeLoop c packet fuel pos (subscribe topic c st)
    else .ok st

/-- The Go `Client.handleSubscribe`, for the client at address `c`. The loop gets one
test of its condition per byte of the packet. -/
def handleSubscribe (c : Ptr) (packet : List Byte) (st : State) : Except Fault State :=
  let st := st.printf .handlingSubscribe
  if packet.length < 4 then .ok st
  else
    (handleSubscribeLoop c packet packet.length 2 st).bind fun st =>
    (index packet 0).bind fun id0 =>
    (index packet 1).bind fun id1 =>
    let suback : List Byte := [0x90, 0x03, id0, id1, 0x00]
    .ok (connWrite c suback st).1

/-! ## Packet bodies as the specification lays them out -/

/-- One SUBSCRIBE entry: the topic length as two bytes, most significant
first, the topic bytes, and the requested QoS byte. -/
def encodeEntry (topic : Topic) (qos : Byte) : List Byte :=
  [toByte (topic.length / 256), toByte (topic.length % 256)] ++ topic ++ [qos]

/-- The entries of a SUBSCRIBE body, one after another. -/
def encodeEntries : List (Topic × Byte) → List Byte
  | [] => []
  | e :: es => encodeEntry e.1 e.2 ++ encodeEntries es

/-- The SUBSCRIBE body with packet identifier `id0 id1` and the given entries. -/
def subscribeBody (id0 id1 : Byte) (entries : List (Topic × Byte)) : List Byte :=
  id0 :: id1 :: encodeEntries entries

/-- The 16-bit value whose most significant byte is `hi`. -/
def bigEndian16 (hi lo : Byte) : Nat := hi.val * 256 + lo.val

/-! ## Concrete states for the scenarios -/

/-- The bytes of an ASCII string. -/
def ascii (s : String) : List Byte := s.toList.map fun ch => toByte ch.toNat

/-- A connection nothing has happened on yet. -/
def freshConn : Conn := { broken := false, closes := 0, written := [] }

/-- The state right after `NewBroker()`: both maps and the log are empty, and
the client at address `p`, once `main` creates it, has identifier `ids p`, an
empty topic set and a fresh connection, which is broken when `p` is in `gone`. -/
def boot (ids : Ptr → String) (gone : List Ptr) : State :=
  { heap := fun p =>
      { conn := { freshConn with broken := decide (p ∈ gone) }, clientID := ids p, topics := [] },
    broker := NewBroker,
    log := [] }

/-- Identifiers for the scenarios: one client per second. -/
def scenarioIds (p : Ptr) : String :=
  if p = 0 then "client_1700000000" else if p = 1 then "client_1700000001" else "client_1700000002"

/-- Client 0 is registered and subscribed to "LightControl". -/
def lightControlState : State :=
  subscribe (ascii "LightControl") 0 (addClient 0 (boot scenarioIds []))

/-- Clients 0 and 1 are registered and subscribed to "T", in this order; the
peer of client 0 has gone away. -/
def twoSubscribersState : State :=
  subscribe (ascii "T") 1 (subscribe (ascii "T") 0 (addClient 1 (addClient 0 (boot scenarioIds [0]))))

/-! ## The dispatch of `handleConnection` (main.go, lines 12-25, 168 and 191-212, 268-272) -/

/-- The constant `CONNECT`. -/
def CONNECT : Nat := 1
/-- The constant `CONNACK`. -/
def CONNACK : Nat := 2
/-- The constant `PUBLISH`. -/
def PUBLISH : Nat := 3
/-- The constant `PUBACK`. -/
def PUBACK : Nat := 4
/-- The constant `SUBSCRIBE`. -/
def SUBSCRIBE : Nat := 8
/-- The constant `SUBACK`, with the value the source gives it. -/
def SUBACK : Nat := 10
/-- The constant `UNSUBSCRIBE`. -/
def UNSUBSCRIBE : Nat := 10
/-- The constant `UNSUBACK`. -/
def UNSUBACK : Nat := 11
/-- The constant `PINGREQ`. -/
def PINGREQ : Nat := 12
/-- The constant `PINGRESP`. -/
def PINGRESP : Nat := 13
/-- The constant `DISCONNECT`. -/
def DISCONNECT : Nat := 14

/-- The expression `(firstByte >> 4) & 0x0F` of `handleConnection`. -/
def msgTypeOf (firstByte : Byte) : Nat := (firstByte.val >>> 4) &&& 0x0F

/-- The Go `Client.handleConnect`, for the client at address `c`: the body is
not looked at. -/
def handleConnect (c : Ptr) (_packet : List Byte) (st : State) : State :=
  let connack : List Byte := [0x20, 0x02, 0x00, 0x00]
  let st1 := (connWrite c connack st).1
  st1.printf (.sentConnack (st1.heap c).clientID)

/-- The Go `Client.handlePingReq`, for the client at address `c`. -/
def handlePingReq (c : Ptr) (st : State) : State :=
  let pingresp : List Byte := [0xD0, 0x00]
  (connWrite c pingresp st).1

/-- How one pass through the `switch` of `handleConnection` ends: the `for`
loop goes on to read the next packet, or the function returns. -/
inductive Flow where
  | next
  | stop
  deriving DecidableEq, Repr

/-- The `switch msgType` of `handleConnection`, for the client at address `c`
and a packet whose body has been read into `packet`. -/
def dispatch (c : Ptr) (msgType : Nat) (packet : List Byte) (st : State) :
    Except Fault (State × Flow) :=
  if msgType = CONNECT then .ok (handleConnect c packet st, .next)
  else if msgType = PUBLISH then (handlePublish packet st).bind fun s => .ok (s, .next)
  else if msgType = SUBSCRIBE then (handleSubscribe c packet st).bind fun s => .ok (s, .next)
  else if msgType = PINGREQ then .ok (handlePingReq c st, .next)
  else if msgType = DISCONNECT then
    .ok (st.printf (.disconnecting (st.heap c).clientID), .stop)
  else .ok (st, .next)

/-! ## Accepting a connection (main.go, lines 309-324) -/

/-- The identifier `fmt.Sprintf("client_%d", time.Now().Unix())`, `now` being
the value of `time.Now().Unix()`, the time in whole seconds. -/
def clientIDAt (now : Nat) : String := "client_" ++ toString now

/-- The body of the accept loop of `main` up to `broker.addClient(client)`:
a new client record is made for the connection `conn` at the address `p`
that the allocator hands out, and it is registered. -/
def accept (now : Nat) (conn : Conn) (p : Ptr) (st : State) : State :=
  let client : Client := { conn := conn, clientID := clientIDAt now, topics := [] }
  addClient p { st with heap := Function.update st.heap p client }

/-! ## Reachable states -/

/-- The states reached from a new broker by `addClient`, `subscribe` and
`removeClient`, each with any arguments. -/
inductive Reachable : State → Prop where
  | empty (heap : Ptr → Client) : Reachable { heap := heap, broker := NewBroker, log := [] }
  | addClient {st : State} (client : Ptr) : Reachable st → Reachable (addClient client st)
  | subscribe {st : State} (topic : Topic) (client : Ptr) :
      Reachable st → Reachable (subscribe topic client st)
  | removeClient {st : State} (clientID : String) :
      Reachable st → Reachable (removeClient clientID st)

/-- The client at address `p` is in the clients map, under its identifier. -/
def Registered (st : State) (p : Ptr) : Prop :=
  st.broker.clients (st.heap p).clientID = some p

/-- Nothing in the broker refers to the address `p`: this is what holds of the
address of a newly allocated record. -/
def Unreferenced (st : State) (p : Ptr) : Prop :=
  (∀ id, st.broker.clients id ≠ some p) ∧ ∀ topic, p ∉ lookupSubscribers st.broker.subscribers topic

/-- The states of a running broker: `addClient` is called as `main` calls it,
on the new record of an accepted connection; `subscribe` is called for a
registered client; `removeClient` is called with any identifier. -/
inductive Running : State → Prop where
  | start (heap : Ptr → Client) : Running { heap := heap, broker := NewBroker, log := [] }
  | accept {st : State} (now : Nat) (conn : Conn) (p : Ptr) :
      Running st → Unreferenced st p → Running (accept now conn p st)
  | subscribe {st : State} (topic : Topic) (p : Ptr) :
      Running st → Registered st p → Running (subscribe topic p st)
  | removeClient {st : State} (clientID : String) :
      Running st → Running (removeClient clientID st)

/-! ## The subscriber slice as cells of a backing array (main.go, lines 92-96 and 106-116)

A Go slice is a window on a backing array, and `subscribers := b.subscribers[topic]`
copies the window, not the cells. The definitions above treat a slice as the
list of its elements; the ones here follow the cells. -/

/-- The cells of the backing array after line 95,
`append(subscribers[:i], subscribers[i+1:]...)`, where `subscribers` is the
window of the first `len` cells: the result fits into the array, so the cells
`i+1 .. len-1` are copied one place down and the cell `len-1` keeps its value. -/
def cutInPlace (array : List Ptr) (len i : Nat) : List Ptr :=
  array.take i ++ (array.take len).drop (i + 1) ++ array.drop (len - 1)

/-- The loop of `removeSubscription` on the cells: the array afterwards, and
the length of the slice that is stored back into the map. -/
def removeSubscriptionInPlace (client : Ptr) (array : List Ptr) (len : Nat) : List Ptr × Nat :=
  let i := (array.take len).indexOf client
  if i < len then (cutInPlace array len i, len - 1) else (array, len)

/-- The clients that `for _, client := range subscribers` in `publish` hands
to its goroutines when `removeSubscription(topic, client)` runs after `k`
iterations of the loop. `snapshot` holds the cells of the slice that `publish`
read under the lock; the loop fixes the number of iterations at the start and
reads cell `j` in iteration `j`. -/
def rangeWithRemoval (snapshot : List Ptr) (k : Nat) (client : Ptr) : List Ptr :=
  let array := (removeSubscriptionInPlace client snapshot snapshot.length).1
  snapshot.take k ++ array.drop k

/-- The cells behind the slice that `publish` iterates on `topic`, after
`removeClient(clientID)` has run in the state `st`: when a client is registered
under the identifier and has the topic in its topic set, `removeSubscription`
cuts it out of the slice stored in the map, which is the window of the current
length on these same cells. -/
def cellsAfterRemoveClient (topic : Topic) (clientID : String) (st : State)
    (cells : List Ptr) : List Ptr :=
  match st.broker.clients clientID with
  | some client =>
    if topic ∈ (st.heap client).topics then
      (removeSubscriptionInPlace client cells
        (lookupSubscribers st.broker.subscribers topic).length).1
    else cells
  | none => cells

/-- The cells after the goroutine for the subscriber `c` has run in the state
`st`: they change when the write fails and `removeClient` is called. -/
def cellsAfterDeliver (topic : Topic) (payload : List Byte) (c : Ptr) (st : State)
    (cells : List Ptr) : List Ptr :=
  let r := sendPublish c topic payload st
  if r.2 then
    let clientID := (r.1.heap c).clientID
    cellsAfterRemoveClient topic clientID (r.1.printf (.sendFailed clientID)) cells
  else cells

/-- The loop `for _, client := range subscribers` of `publish`, from iteration
`j` on with `remaining` iterations to go, in the schedule in which every
goroutine runs to completion as soon as it is started: iteration `j` reads
cell `j` as the goroutines before it have left it. -/
def rangeEager (topic : Topic) (payload : List Byte) :
    Nat → Nat → List Ptr → State → State
  | 0, _, _, st => st
  | remaining + 1, j, cells, st =>
    match cells[j]? with
    | some client =>
      rangeEager topic payload remaining (j + 1)
        (cellsAfterDeliver topic payload client st cells) (deliver topic payload client st)
    | none => st

/-- The Go `Broker.publish`, in the schedule in which every goroutine runs to
completion as soon as the loop has started it. The number of iterations is
the length of the slice read under the lock. -/
def publishEager (topic : Topic) (payload : List Byte) (st : State) : State :=
  let subscribers := lookupSubscribers st.broker.subscribers topic
  if subscribers.length = 0 then st.printf (.noSubscribers topic)
  else
    rangeEager topic payload subscribers.length 0 subscribers
      (st.printf (.publishing topic payload))

/-- Clients 0, 1 and 2 are registered under three identifiers and subscribed
to "T", in this order; the peer of client 0 has gone away. -/
def threeSubscribersState : State :=
  subscribe (ascii "T") 2 (subscribe (ascii "T") 1 (subscribe (ascii "T") 0
    (addClient 2 (addClient 1 (addClient 0 (boot scenarioIds [0]))))))

/-! ## The lamp client (LightLamp/main.go, lines 9-39) -/

/-- The line that `msgHandler` prints. -/
inductive LampLine where
  | already (messageContent : List Byte)
  | turned (messageContent : List Byte)
  | dimChanged (messageContent : List Byte)
  deriving DecidableEq, Repr

/-- The function `msgHandler` of the lamp: from the value of the variable
`lightState` and the payload of the message to the new value of `lightState`
and the printed line. Go strings are byte sequences. -/
def msgHandler (lightState : List Byte) (payload : List Byte) : List Byte × LampLine :=
  let messageContent := payload
  if messageContent = ascii "ON" ∨ messageContent = ascii "OFF" then
    if (lightState = ascii "ON" ∧ messageContent = ascii "ON")
        ∨ (lightState = ascii "OFF" ∧ messageContent = ascii "OFF") then
      (lightState, .already messageContent)
    else (messageContent, .turned messageContent)
  else (lightState, .dimChanged messageContent)

/-- The value of `lightState` after the lamp, started with `lightState = "ON"`,
has handled the payloads in order. -/
def lightStateAfter (payloads : List (List Byte)) : List Byte :=
  payloads.foldl (fun lightState payload => (msgHandler lightState payload).1) (ascii "ON")

/-! ## The variable-length integer -/

theorem and_7F_eq_mod (b : Byte) : b.val &&& 0x7F = b.val % 128 := by
  revert b; decide

theorem and_80_eq_zero_iff (b : Byte) : b.val &&& 0x80 = 0 ↔ b.val < 128 := by
  revert b; decide

theorem toByte_val_of_lt {x : Nat} (h : x < 256) : (toByte x).val = x := by
  simp [toByte, Nat.mod_eq_of_lt h]

/-- Or-ing a shifted group into an accumulator that lies below the shift is
adding it. -/
theorem lor_shiftLeft_eq_add {length g shift : Nat} (h : length < 2 ^ shift) :
    length ||| (g <<< shift) = length + g * 2 ^ shift := by
  rw [Nat.shiftLeft_eq, Nat.lor_comm, Nat.mul_comm g, ← Nat.mul_add_lt_is_or h, Nat.add_comm]

/-- One pass of the decoding loop over the encoding of `n` adds
`n * 2 ^ shift` to the accumulator and leaves the reader at `rest`. -/
theorem readRemainingLengthLoop_encodeGroups (fuel : Nat) :
    ∀ (n length shift : Nat) (rest : List Byte), n < fuel → shift < 28 →
      n < 2 ^ (28 - shift) → length < 2 ^ shift →
      readRemainingLengthLoop length shift (encodeGroups fuel n ++ rest)
        = (.ok (length + n * 2 ^ shift), rest) := by
  induction fuel with
  | zero => intro n _ _ _ h; omega
  | succ fuel ih =>
    intro n length shift rest hfuel hshift hn hlen
    have hmod : n % 128 < 128 := Nat.mod_lt _ (by decide)
    by_cases hq : n / 128 = 0
    · have hsmall : n < 128 := by omega
      have hb : (toByte (n % 128)).val = n := by
        rw [toByte_val_of_lt (by omega)]; omega
      have hhi : (toByte (n % 128)).val &&& 0x80 = 0 :=
        (and_80_eq_zero_iff _).2 (by omega)
      have hlo : (toByte (n % 128)).val &&& 0x7F = n := by
        rw [and_7F_eq_mod, hb]; omega
      simp only [encodeGroups, hq, if_true, List.singleton_append, readRemainingLengthLoop,
        ge_iff_le, Nat.not_le.2 hshift, if_false, hhi, hlo, lor_shiftLeft_eq_add hlen]
    · have hbig : 128 ≤ n := by omega
      have hb : (toByte (n % 128 + 128)).val = n % 128 + 128 := toByte_val_of_lt (by omega)
      have hhi : ¬ ((toByte (n % 128 + 128)).val &&& 0x80 = 0) := by
        rw [and_80_eq_zero_iff, hb]; omega
      have hlo : (toByte (n % 128 + 128)).val &&& 0x7F = n % 128 := by
        rw [and_7F_eq_mod, hb]; omega
      have hshift7 : shift + 7 < 28 := by
        by_contra hc
        have h1 : 2 ^ (28 - shift) ≤ 2 ^ 7 := Nat.pow_le_pow_right (by decide) (by omega)
        have h2 : (2 : Nat) ^ 7 = 128 := by norm_num
        omega
      have hpow : (2 : Nat) ^ (28 - shift) = 2 ^ (28 - (shift + 7)) * 128 := by
        rw [show 28 - shift = (28 - (shift + 7)) + 7 by omega, Nat.pow_add]
      have hn2 : n / 128 < 2 ^ (28 - (shift + 7)) := by
        rw [Nat.div_lt_iff_lt_mul (by decide)]; omega
      have hP : (2 : Nat) ^ (shift + 7) = 2 ^ shift * 128 := by rw [Nat.pow_add]
      have hlen2 : length + n % 128 * 2 ^ shift < 2 ^ (shift + 7) := by
        rw [hP]
        have : n % 128 * 2 ^ shift ≤ 127 * 2 ^ shift := Nat.mul_le_mul_right _ (by omega)
        omega
      have hstep := ih (n / 128) (length + n % 128 * 2 ^ shift) (shift + 7) rest
        (by omega) hshift7 hn2 hlen2
      have hsum : length + n % 128 * 2 ^ shift + n / 128 * 2 ^ (shift + 7)
          = length + n * 2 ^ shift := by
        rw [hP]
        have hdm : n = 128 * (n / 128) + n % 128 := (Nat.div_add_mod n 128).symm
        generalize n / 128 = q at hdm
        generalize n % 128 = r at hdm
        subst hdm
        ring
      simp only [encodeGroups, hq, if_false, List.cons_append, readRemainingLengthLoop,
        ge_iff_le, Nat.not_le.2 hshift, hhi, hlo, lor_shiftLeft_eq_add hlen, hstep, hsum]

/-- A number with exactly `k + 1` seven-bit groups is encoded in `k + 1` bytes. -/
theorem encodeGroups_length (k : Nat) :
    ∀ (fuel n : Nat), k < fuel → 128 ^ k ≤ n → n < 128 ^ (k + 1) →
      (encodeGroups fuel n).length = k + 1 := by
  induction k with
  | zero =>
    intro fuel n hf _ hhi
    obtain ⟨f, rfl⟩ : ∃ f, fuel = f + 1 := ⟨fuel - 1, by omega⟩
    have : n / 128 = 0 := by
      rw [Nat.div_eq_zero_iff (by decide)]; simpa using hhi
    simp [encodeGroups, this]
  | succ k ih =>
    intro fuel n hf hlo hhi
    obtain ⟨f, rfl⟩ : ∃ f, fuel = f + 1 := ⟨fuel - 1, by omega⟩
    have hpos : 0 < 128 ^ k := by positivity
    have h1 : 128 ^ k ≤ n / 128 := by
      rw [Nat.le_div_iff_mul_le (by decide)]
      rw [Nat.pow_succ] at hlo; exact hlo
    have h2 : n / 128 < 128 ^ (k + 1) := by
      rw [Nat.div_lt_iff_lt_mul (by decide)]
      rw [Nat.pow_succ] at hhi; exact hhi
    have hq : ¬ (n / 128 = 0) := by omega
    simp [encodeGroups, hq, ih f (n / 128) (by omega) h1 h2]

/-- Once `shift` has reached 28 the loop fails without reading. -/
theorem readRemainingLengthLoop_at_28 (length : Nat) (s : List Byte) :
    readRemainingLengthLoop length 28 s = (.error .exceedsMaximum, s) := by
  cases s <;> simp [readRemainingLengthLoop]

/-- C1: for every n ≤ 268,435,455 and every continuation `rest` of the stream,
`readRemainingLength` on the minimal encoding of n followed by `rest` returns n
without error and leaves exactly `rest` unread; the encoding is 3 bytes long for
16,384 ≤ n ≤ 2,097,151 and 4 bytes long for 2,097,152 ≤ n ≤ 268,435,455. -/
theorem readRemainingLength_encodeRemainingLength (n : Nat) (hn : n ≤ 268435455)
    (rest : List Byte) :
    readRemainingLength (encodeRemainingLength n ++ rest) = (.ok n, rest)
      ∧ (16384 ≤ n → n ≤ 2097151 → (encodeRemainingLength n).length = 3)
      ∧ (2097152 ≤ n → (encodeRemainingLength n).length = 4) := by
  refine ⟨?_, ?_, ?_⟩
  · have h := readRemainingLengthLoop_encodeGroups (n + 1) n 0 0 rest
      (by omega) (by decide) (by norm_num; omega) (by decide)
    simpa [readRemainingLength, encodeRemainingLength] using h
  · intro hlo hhi
    exact encodeGroups_length 2 (n + 1) n (by omega) (by norm_num; omega) (by norm_num; omega)
  · intro hlo
    exact encodeGroups_length 3 (n + 1) n (by omega) (by norm_num; omega) (by norm_num; omega)

/-- Witness of C1 at n = 2,097,152, the smallest value that needs four bytes. -/
theorem readRemainingLength_encodeRemainingLength_witness :
    (2097152 ≤ 268435455)
      ∧ readRemainingLength ([0x80, 0x80, 0x80, 0x01] ++ [0x30, 0x00]) = (.ok 2097152, [0x30, 0x00])
      ∧ (encodeRemainingLength 2097152).length = 4 := by
  have h := readRemainingLength_encodeRemainingLength 2097152 (by decide) [0x30, 0x00]
  have he : encodeRemainingLength 2097152 = [0x80, 0x80, 0x80, 0x01] := by decide
  rw [he] at h
  exact ⟨by decide, h.1, h.2.2 (by decide)⟩

/-- The bytes the loop leaves unread are the stream minus a prefix whose
length is bounded by the room left below shift 28. -/
theorem readRemainingLengthLoop_consumed (s : List Byte) :
    ∀ (length shift : Nat), ∃ consumed,
      s = consumed ++ (readRemainingLengthLoop length shift s).2
        ∧ consumed.length * 7 ≤ 34 - shift := by
  induction s with
  | nil =>
    intro length shift
    refine ⟨[], ?_, by simp⟩
    by_cases h : 28 ≤ shift <;> simp [readRemainingLengthLoop, h]
  | cons b rest ih =>
    intro length shift
    by_cases h : 28 ≤ shift
    · exact ⟨[], by simp [readRemainingLengthLoop, h], by simp⟩
    · by_cases hb : b.val &&& 0x80 = 0
      · refine ⟨[b], by simp [readRemainingLengthLoop, h, hb], ?_⟩
        simp only [List.length_singleton]; omega
      · obtain ⟨consumed, h1, h2⟩ :=
          ih (length ||| ((b.val &&& 0x7F) <<< shift)) (shift + 7)
        refine ⟨b :: consumed, ?_, ?_⟩
        · simp only [readRemainingLengthLoop, ge_iff_le, h, if_false, hb, List.cons_append]
          exact congrArg (List.cons b) h1
        · simp only [List.length_cons]; omega

/-- The loop fails exactly when the bytes it may still read (as many as the
shift allows, four from shift 0) all carry the high bit, or the stream ends
before one without it. -/
theorem readRemainingLength_fails_iff (s : List Byte) :
    (∃ e, (readRemainingLength s).1 = .error e) ↔
      ((∀ b ∈ s, b.val &&& 0x80 ≠ 0) ∨
        (4 ≤ s.length ∧ ∀ b ∈ s.take 4, b.val &&& 0x80 ≠ 0)) := by
  rcases s with _ | ⟨a, _ | ⟨b, _ | ⟨c, _ | ⟨d, rest⟩⟩⟩⟩
  · simp [readRemainingLength, readRemainingLengthLoop]
  · by_cases ha : a.val &&& 0x80 = 0 <;>
      simp [readRemainingLength, readRemainingLengthLoop, ha]
  · by_cases ha : a.val &&& 0x80 = 0 <;> by_cases hb : b.val &&& 0x80 = 0 <;>
      simp [readRemainingLength, readRemainingLengthLoop, ha, hb]
  · by_cases ha : a.val &&& 0x80 = 0 <;> by_cases hb : b.val &&& 0x80 = 0 <;>
      by_cases hc : c.val &&& 0x80 = 0 <;>
      simp [readRemainingLength, readRemainingLengthLoop, ha, hb, hc]
  · by_cases ha : a.val &&& 0x80 = 0 <;> by_cases hb : b.val &&& 0x80 = 0 <;>
      by_cases hc : c.val &&& 0x80 = 0 <;> by_cases hd : d.val &&& 0x80 = 0 <;>
      simp [readRemainingLength, readRemainingLengthLoop, readRemainingLengthLoop_at_28,
        ha, hb, hc, hd]

/-- C2: `readRemainingLength` fails exactly when every byte of the stream has the
high bit set (the stream ends before a terminating byte is read) or the first four
bytes all have the high bit set; in every case the bytes it leaves unread are the
stream minus a prefix of at most four bytes. -/
theorem readRemainingLength_error_iff (s : List Byte) :
    ((∃ e, (readRemainingLength s).1 = .error e) ↔
        ((∀ b ∈ s, b.val &&& 0x80 ≠ 0) ∨
          (4 ≤ s.length ∧ ∀ b ∈ s.take 4, b.val &&& 0x80 ≠ 0)))
      ∧ ∃ consumed, s = consumed ++ (readRemainingLength s).2 ∧ consumed.length ≤ 4 := by
  refine ⟨readRemainingLength_fails_iff s, ?_⟩
  obtain ⟨consumed, h1, h2⟩ := readRemainingLengthLoop_consumed s 0 0
  exact ⟨consumed, h1, by omega⟩

/-! ## Duplicate subscriptions -/

/-- Whatever the state, subscribing the same client to the same topic twice
adds two entries for it to the subscriber list of that topic. -/
theorem subscribe_twice_count (st : State) (topic : Topic) (c : Ptr) :
    (lookupSubscribers (subscribe topic c (subscribe topic c st)).broker.subscribers topic).count c
      = (lookupSubscribers st.broker.subscribers topic).count c + 2 := by
  simp [subscribe, lookupSubscribers, Function.update]

/-- C3 (the code does not do this): with client 0 registered at a new broker,
`subscribe("LightControl", 0)` applied twice leaves the subscriber list of
"LightControl" equal to `[0, 0]`, so client 0 is recorded twice, while its own
topic set holds the topic once. -/
theorem subscribe_twice_duplicates :
    (subscribe (ascii "LightControl") 0 (subscribe (ascii "LightControl") 0
        (addClient 0 (boot scenarioIds [])))).broker.subscribers (ascii "LightControl")
      = some [0, 0]
    ∧ ((subscribe (ascii "LightControl") 0 (subscribe (ascii "LightControl") 0
        (addClient 0 (boot scenarioIds [])))).heap 0).topics = [ascii "LightControl"] := by
  decide

/-- C4 (the code does not do this): at a new broker, client 0 is registered and
subscribes twice to "LightControl"; it is then the only subscriber of the topic.
After `removeClient` of its identifier it is gone from the clients map and its
connection is closed, but it still stands in the subscriber list of the topic,
the topic is still a key, and a later publish on the topic writes to it. -/
theorem removeClient_leaves_duplicate :
    (subscribe (ascii "LightControl") 0 (subscribe (ascii "LightControl") 0
        (addClient 0 (boot scenarioIds [])))).broker.clients "client_1700000000" = some 0
    ∧ (subscribe (ascii "LightControl") 0 (subscribe (ascii "LightControl") 0
        (addClient 0 (boot scenarioIds [])))).broker.subscribers (ascii "LightControl")
        = some [0, 0]
    ∧ ((removeClient "client_1700000000"
        (subscribe (ascii "LightControl") 0 (subscribe (ascii "LightControl") 0
          (addClient 0 (boot scenarioIds []))))).heap 0).conn.closes = 1
    ∧ (removeClient "client_1700000000"
        (subscribe (ascii "LightControl") 0 (subscribe (ascii "LightControl") 0
          (addClient 0 (boot scenarioIds []))))).broker.clients "client_1700000000" = none
    ∧ (removeClient "client_1700000000"
        (subscribe (ascii "LightControl") 0 (subscribe (ascii "LightControl") 0
          (addClient 0 (boot scenarioIds []))))).broker.subscribers (ascii "LightControl")
        = some [0]
    ∧ ((publish (ascii "LightControl") (ascii "ON")
        (removeClient "client_1700000000"
          (subscribe (ascii "LightControl") 0 (subscribe (ascii "LightControl") 0
            (addClient 0 (boot scenarioIds [])))))).heap 0).conn.written
        = [publishPacket (ascii "LightControl") (ascii "ON")] := by
  decide

/-! ## The PUBLISH packet that is sent -/

/-- C5 (the code does not do this): for the topic "LightControl" and a payload
of 114 bytes the packet of `sendPublish` is 130 bytes long and starts with
0x30 0x80: the remaining length 128 has been cut to one byte. Decoding the
length field with `readRemainingLength` gives 0 and consumes two bytes, the
second of which belongs to the topic length, although 128 bytes follow the
one-byte field. -/
theorem publishPacket_long_misframed :
    (publishPacket (ascii "LightControl") (List.replicate 114 0x41)).length = 130
    ∧ (publishPacket (ascii "LightControl") (List.replicate 114 0x41)).take 4
        = [0x30, 0x80, 0x00, 0x0C]
    ∧ readRemainingLength (publishPacket (ascii "LightControl") (List.replicate 114 0x41)).tail
        = (.ok 0, [0x0C] ++ ascii "LightControl" ++ List.replicate 114 0x41)
    ∧ ((publishPacket (ascii "LightControl") (List.replicate 114 0x41)).drop 2).length
        = 2 + 12 + 114 := by
  decide

/-! ## SUBSCRIBE with several topics -/

/-- C6 (the code does not do this): for the well-formed SUBSCRIBE body with
packet identifier 0x00 0x01 and the two topics "a" and "b", `handleSubscribe`
subscribes client 0 to both and writes the SUBACK 0x90 0x03 0x00 0x01 0x00:
remaining length 3 and one granted-QoS byte, where two topics were requested. -/
theorem handleSubscribe_two_topics_suback :
    ∃ st, handleSubscribe 0 (subscribeBody 0x00 0x01 [(ascii "a", 0), (ascii "b", 0)])
          (addClient 0 (boot scenarioIds [])) = .ok st
      ∧ st.broker.subscribers (ascii "a") = some [0]
      ∧ st.broker.subscribers (ascii "b") = some [0]
      ∧ (st.heap 0).conn.written = [[0x90, 0x03, 0x00, 0x01, 0x00]] :=
  ⟨_, rfl, by decide, by decide, by decide⟩

/-! ## Index and slice expressions on a packet that is known in parts -/

theorem shiftLeft8_lor_eq (hi lo : Byte) : hi.val <<< 8 ||| lo.val = bigEndian16 hi lo := by
  have h : lo.val < 2 ^ 8 := lo.isLt
  rw [Nat.shiftLeft_eq, Nat.mul_comm, ← Nat.mul_add_lt_is_or h, bigEndian16, Nat.mul_comm]

theorem index_append_cons (pre : List Byte) (b : Byte) (rest : List Byte) :
    index (pre ++ b :: rest) pre.length = .ok b := by
  have h : (pre ++ b :: rest)[pre.length]? = some b := by
    rw [List.getElem?_append_right (Nat.le_refl _)]; simp
  simp only [index, h]

theorem index_append_cons_succ (pre : List Byte) (a b : Byte) (rest : List Byte) :
    index (pre ++ a :: b :: rest) (pre.length + 1) = .ok b := by
  have h := index_append_cons (pre ++ [a]) b rest
  simpa using h

theorem slice_append (pre mid rest : List Byte) :
    slice (pre ++ (mid ++ rest)) pre.length (pre.length + mid.length) = .ok mid := by
  simp [slice]

theorem bigEndian16_toByte {n : Nat} (h : n < 65536) :
    bigEndian16 (toByte (n / 256)) (toByte (n % 256)) = n := by
  have h1 : (toByte (n / 256)).val = n / 256 := toByte_val_of_lt (by omega)
  have h2 : (toByte (n % 256)).val = n % 256 := toByte_val_of_lt (by omega)
  rw [bigEndian16, h1, h2]
  omega

/-! ## `handlePublish` -/

theorem removeClient_log_le (clientID : String) (st : State) :
    st.log.length ≤ (removeClient clientID st).log.length := by
  unfold removeClient
  split <;> simp

theorem deliver_log_le (topic : Topic) (payload : List Byte) (c : Ptr) (st : State) :
    st.log.length ≤ (deliver topic payload c st).log.length := by
  unfold deliver
  by_cases h : (sendPublish c topic payload st).2 = true
  · simp only [h, if_true]
    refine Nat.le_trans ?_ (removeClient_log_le _ _)
    simp [State.printf, sendPublish, connWrite]
  · simp only [h]
    simp [sendPublish, connWrite]

theorem fanOut_log_le (topic : Topic) (payload : List Byte) (order : List Ptr) :
    ∀ st : State, st.log.length ≤ (fanOut topic payload order st).log.length := by
  induction order with
  | nil => intro st; simp [fanOut]
  | cons c order ih =>
    intro st
    exact Nat.le_trans (deliver_log_le topic payload c st) (ih (deliver topic payload c st))

/-- Every call of `publish` writes at least one line to the log. -/
theorem publish_log_lt (topic : Topic) (payload : List Byte) (st : State) :
    st.log.length < (publish topic payload st).log.length := by
  unfold publish
  by_cases h : (lookupSubscribers st.broker.subscribers topic).length = 0
  · simp [h, State.printf]
  · simp only [h, if_false]
    refine Nat.lt_of_lt_of_le ?_ (fanOut_log_le _ _ _ _)
    simp [State.printf]

theorem publish_ne_self (topic : Topic) (payload : List Byte) (st : State) :
    publish topic payload st ≠ st := by
  intro h
  have := publish_log_lt topic payload st
  rw [h] at this
  exact Nat.lt_irrefl _ this

/-- C9: `handlePublish` on a body b calls `publish` exactly when b has at least
two bytes and the big-endian value L of its first two bytes satisfies
2 + L ≤ len(b); the call is then `publish(b[2 : 2+L], b[2+L:])`; otherwise the
state (registries, connections, log) is returned unchanged. -/
theorem handlePublish_spec (b : List Byte) (st : State) :
    ((∃ topic payload, handlePublish b st = .ok (publish topic payload st)) ↔
        (2 ≤ b.length ∧ 2 + bigEndian16 (b.getD 0 0) (b.getD 1 0) ≤ b.length))
    ∧ (2 ≤ b.length ∧ 2 + bigEndian16 (b.getD 0 0) (b.getD 1 0) ≤ b.length →
        handlePublish b st
          = .ok (publish ((b.drop 2).take (bigEndian16 (b.getD 0 0) (b.getD 1 0)))
                  (b.drop (2 + bigEndian16 (b.getD 0 0) (b.getD 1 0))) st))
    ∧ (¬ (2 ≤ b.length ∧ 2 + bigEndian16 (b.getD 0 0) (b.getD 1 0) ≤ b.length) →
        handlePublish b st = .ok st) := by
  have hyes : 2 ≤ b.length ∧ 2 + bigEndian16 (b.getD 0 0) (b.getD 1 0) ≤ b.length →
      handlePublish b st
        = .ok (publish ((b.drop 2).take (bigEndian16 (b.getD 0 0) (b.getD 1 0)))
                (b.drop (2 + bigEndian16 (b.getD 0 0) (b.getD 1 0))) st) := by
    rintro ⟨h2, hL⟩
    rcases b with _ | ⟨b0, _ | ⟨b1, rest⟩⟩
    · simp at h2
    · simp at h2
    · simp only [List.getD_cons_zero, List.getD_cons_succ, List.length_cons] at hL ⊢
      have hlen : ¬ (rest.length + 1 + 1 < 2) := by omega
      have hfit : ¬ (rest.length + 1 + 1 < 2 + bigEndian16 b0 b1) := by omega
      have hs : (2 ≤ 2 + bigEndian16 b0 b1 ∧ 2 + bigEndian16 b0 b1 ≤ rest.length + 1 + 1) :=
        ⟨by omega, hL⟩
      simp [handlePublish, index, slice, sliceFrom, Except.bind, shiftLeft8_lor_eq, hlen,
        hfit, hs, hL]
  have hno : ¬ (2 ≤ b.length ∧ 2 + bigEndian16 (b.getD 0 0) (b.getD 1 0) ≤ b.length) →
      handlePublish b st = .ok st := by
    intro hn
    rcases b with _ | ⟨b0, _ | ⟨b1, rest⟩⟩
    · simp [handlePublish]
    · simp [handlePublish]
    · simp only [List.getD_cons_zero, List.getD_cons_succ, List.length_cons] at hn
      have hfit : rest.length + 1 + 1 < 2 + bigEndian16 b0 b1 := by omega
      simp [handlePublish, index, Except.bind, shiftLeft8_lor_eq, hfit]
  refine ⟨⟨?_, fun h => ⟨_, _, hyes h⟩⟩, hyes, hno⟩
  rintro ⟨topic, payload, h⟩
  by_contra hn
  rw [hno hn] at h
  exact publish_ne_self topic payload st (Except.ok.inj h).symm

/-- Witness of C9: the body 0x00 0x01 "T" "ON" is published on topic "T" with
payload "ON". -/
theorem handlePublish_spec_witness :
    handlePublish ([0x00, 0x01] ++ ascii "T" ++ ascii "ON") (boot scenarioIds [])
      = .ok (publish (ascii "T") (ascii "ON") (boot scenarioIds [])) :=
  (handlePublish_spec ([0x00, 0x01] ++ ascii "T" ++ ascii "ON") (boot scenarioIds [])).2.1
    (by decide)

/-! ## `handleSubscribe` -/

theorem encodeEntry_length (topic : Topic) (qos : Byte) :
    (encodeEntry topic qos).length = topic.length + 3 := by
  simp [encodeEntry]

theorem encodeEntries_length_ge (entries : List (Topic × Byte)) :
    3 * entries.length ≤ (encodeEntries entries).length := by
  induction entries with
  | nil => simp [encodeEntries]
  | cons e es ih =>
    simp only [encodeEntries, List.length_append, List.length_cons, encodeEntry_length]
    omega

/-- One pass of the loop over a complete entry: the topic is subscribed and
the position moves behind the entry. -/
theorem handleSubscribeLoop_entry (c : Ptr) (pre : List Byte) (topic : Topic) (qos : Byte)
    (rest : List Byte) (fuel : Nat) (st : State) (h : topic.length < 65536) :
    handleSubscribeLoop c (pre ++ (encodeEntry topic qos ++ rest)) (fuel + 1) pre.length st
      = handleSubscribeLoop c (pre ++ (encodeEntry topic qos ++ rest)) fuel
          (pre ++ encodeEntry topic qos).length (subscribe topic c st) := by
  have hshape : pre ++ (encodeEntry topic qos ++ rest)
      = pre ++ toByte (topic.length / 256) :: toByte (topic.length % 256)
          :: (topic ++ qos :: rest) := by
    simp [encodeEntry]
  have hlen : (pre ++ (encodeEntry topic qos ++ rest)).length
      = pre.length + topic.length + 3 + rest.length := by
    simp [encodeEntry]; omega
  have hi := index_append_cons pre (toByte (topic.length / 256))
    (toByte (topic.length % 256) :: (topic ++ qos :: rest))
  have hlo := index_append_cons_succ pre (toByte (topic.length / 256))
    (toByte (topic.length % 256)) (topic ++ qos :: rest)
  have hsl : slice (pre ++ (encodeEntry topic qos ++ rest)) (pre.length + 2)
      (pre.length + 2 + topic.length) = .ok topic := by
    have := slice_append (pre ++ [toByte (topic.length / 256), toByte (topic.length % 256)])
      topic (qos :: rest)
    simpa [encodeEntry] using this
  rw [← hshape] at hi hlo
  have h1 : pre.length < (pre ++ (encodeEntry topic qos ++ rest)).length := by omega
  have h2 : ¬ (pre.length + 2 ≥ (pre ++ (encodeEntry topic qos ++ rest)).length) := by omega
  have h3 : ¬ (pre.length + 2 + topic.length
      ≥ (pre ++ (encodeEntry topic qos ++ rest)).length) := by omega
  have hpos : (pre ++ encodeEntry topic qos).length = pre.length + 2 + topic.length + 1 := by
    simp [encodeEntry]; omega
  rw [handleSubscribeLoop]
  simp only [h1, if_true, h2, if_false, hi, hlo, Except.bind, shiftLeft8_lor_eq,
    bigEndian16_toByte h, h3, hsl, hpos]

/-- The loop over a run of complete entries subscribes their topics in order
and arrives behind the run, having used one test of its condition per entry. -/
theorem handleSubscribeLoop_entries (c : Ptr) (entries : List (Topic × Byte)) :
    ∀ (pre rest : List Byte) (fuel : Nat) (st : State),
      (∀ e ∈ entries, e.1.length < 65536) →
      handleSubscribeLoop c (pre ++ (encodeEntries entries ++ rest)) (fuel + entries.length)
          pre.length st
        = handleSubscribeLoop c (pre ++ (encodeEntries entries ++ rest)) fuel
            (pre ++ encodeEntries entries).length
            (entries.foldl (fun s e => subscribe e.1 c s) st) := by
  induction entries with
  | nil => intro pre rest fuel st _; simp [encodeEntries]
  | cons e es ih =>
    intro pre rest fuel st hfit
    have he : e.1.length < 65536 := hfit e (List.mem_cons_self _ _)
    have hes : ∀ x ∈ es, x.1.length < 65536 := fun x hx => hfit x (List.mem_cons_of_mem _ hx)
    have hpk : pre ++ (encodeEntries (e :: es) ++ rest)
        = pre ++ (encodeEntry e.1 e.2 ++ (encodeEntries es ++ rest)) := by
      simp [encodeEntries]
    have hpk2 : pre ++ (encodeEntry e.1 e.2 ++ (encodeEntries es ++ rest))
        = (pre ++ encodeEntry e.1 e.2) ++ (encodeEntries es ++ rest) := by
      simp
    have hend : (pre ++ encodeEntries (e :: es)).length
        = ((pre ++ encodeEntry e.1 e.2) ++ encodeEntries es).length := by
      simp [encodeEntries]
    rw [hpk, List.length_cons, ← Nat.add_assoc,
      handleSubscribeLoop_entry c pre e.1 e.2 (encodeEntries es ++ rest) (fuel + es.length) st he,
      hpk2, ih (pre ++ encodeEntry e.1 e.2) rest fuel (subscribe e.1 c st) hes, hend]
    rfl

/-- At the end of the packet the loop stops. -/
theorem handleSubscribeLoop_at_end (c : Ptr) (packet : List Byte) (fuel : Nat) (st : State) :
    handleSubscribeLoop c packet (fuel + 1) packet.length st = .ok st := by
  simp [handleSubscribeLoop]

/-- At an entry whose declared topic, with its QoS byte, does not fit into
what is left of the packet, the loop stops. -/
theorem handleSubscribeLoop_unfitting (c : Ptr) (pre : List Byte) (hi lo : Byte)
    (rest : List Byte) (fuel : Nat) (st : State) (h : rest.length ≤ bigEndian16 hi lo) :
    handleSubscribeLoop c (pre ++ hi :: lo :: rest) (fuel + 1) pre.length st = .ok st := by
  have h1 : pre.length < (pre ++ hi :: lo :: rest).length := by simp
  have hlen : (pre ++ hi :: lo :: rest).length = pre.length + 2 + rest.length := by
    simp; omega
  rw [handleSubscribeLoop]
  by_cases h2 : pre.length + 2 ≥ (pre ++ hi :: lo :: rest).length
  · simp only [h1, if_true, h2]
  · have h3 : pre.length + 2 + bigEndian16 hi lo ≥ (pre ++ hi :: lo :: rest).length := by omega
    simp only [h1, if_true, h2, if_false, index_append_cons, index_append_cons_succ,
      Except.bind, shiftLeft8_lor_eq, h3]

/-- A body made of the packet identifier, a run of complete entries and a
tail at which the loop stops: the topics of the run are subscribed in order
and the fixed SUBACK is written. -/
theorem handleSubscribe_entries_then_stop (c : Ptr) (st : State) (id0 id1 : Byte)
    (entries : List (Topic × Byte)) (tail : List Byte)
    (hfit : ∀ e ∈ entries, e.1.length < 65536)
    (hlen : 4 ≤ ([id0, id1] ++ (encodeEntries entries ++ tail)).length)
    (hstop : ∀ (fuel : Nat) (s : State),
      handleSubscribeLoop c ([id0, id1] ++ (encodeEntries entries ++ tail)) (fuel + 1)
        ([id0, id1] ++ encodeEntries entries).length s = .ok s) :
    handleSubscribe c ([id0, id1] ++ (encodeEntries entries ++ tail)) st
      = .ok (connWrite c [0x90, 0x03, id0, id1, 0x00]
          (entries.foldl (fun s e => subscribe e.1 c s) (st.printf .handlingSubscribe))).1 := by
  have h3 := encodeEntries_length_ge entries
  have hl : ([id0, id1] ++ (encodeEntries entries ++ tail)).length
      = 2 + (encodeEntries entries).length + tail.length := by
    simp; omega
  obtain ⟨fuel, hfuel⟩ : ∃ fuel,
      ([id0, id1] ++ (encodeEntries entries ++ tail)).length = (fuel + 1) + entries.length :=
    ⟨([id0, id1] ++ (encodeEntries entries ++ tail)).length - entries.length - 1, by omega⟩
  have hloop := handleSubscribeLoop_entries c entries [id0, id1] tail (fuel + 1)
    (st.printf .handlingSubscribe) hfit
  rw [hstop] at hloop
  have hnot : ¬ (([id0, id1] ++ (encodeEntries entries ++ tail)).length < 4) := by omega
  have hi0 : index ([id0, id1] ++ (encodeEntries entries ++ tail)) 0 = .ok id0 := rfl
  have hi1 : index ([id0, id1] ++ (encodeEntries entries ++ tail)) 1 = .ok id1 := by
    simp [index]
  unfold handleSubscribe
  simp only [hnot, if_false, hi0, hi1]
  rw [hfuel]
  simp only [List.length_cons, List.length_nil, Nat.zero_add, Nat.reduceAdd] at hloop
  rw [hloop]
  rfl

/-- C8: for a SUBSCRIBE body made of a two-byte packet identifier followed by
n ≥ 1 complete entries and nothing else, `handleSubscribe` returns normally, and
the state it leaves is the one reached by calling `subscribe` for this client on
the n listed topics, once each in body order, and then writing the SUBACK. -/
theorem handleSubscribe_complete_entries (c : Ptr) (st : State) (id0 id1 : Byte)
    (entries : List (Topic × Byte)) (hne : entries ≠ [])
    (hfit : ∀ e ∈ entries, e.1.length < 65536) :
    handleSubscribe c (subscribeBody id0 id1 entries) st
      = .ok (connWrite c [0x90, 0x03, id0, id1, 0x00]
          (entries.foldl (fun s e => subscribe e.1 c s) (st.printf .handlingSubscribe))).1 := by
  have hbody : subscribeBody id0 id1 entries = [id0, id1] ++ (encodeEntries entries ++ []) := by
    simp [subscribeBody]
  have h3 := encodeEntries_length_ge entries
  have hpos : 0 < entries.length := List.length_pos.2 hne
  rw [hbody]
  refine handleSubscribe_entries_then_stop c st id0 id1 entries [] hfit ?_ ?_
  · simp only [List.length_append, List.length_cons, List.length_nil]; omega
  · intro fuel s
    have h := handleSubscribeLoop_at_end c ([id0, id1] ++ (encodeEntries entries ++ [])) fuel s
    simpa using h

/-- Witness of C8: one entry, the topic "LightControl" with QoS 0. -/
theorem handleSubscribe_complete_entries_witness :
    handleSubscribe 0 (subscribeBody 0x00 0x01 [(ascii "LightControl", 0)])
        (addClient 0 (boot scenarioIds []))
      = .ok (connWrite 0 [0x90, 0x03, 0x00, 0x01, 0x00]
          (subscribe (ascii "LightControl") 0
            ((addClient 0 (boot scenarioIds [])).printf .handlingSubscribe))).1 :=
  handleSubscribe_complete_entries 0 (addClient 0 (boot scenarioIds [])) 0x00 0x01
    [(ascii "LightControl", 0)] (by decide) (by decide)

theorem foldl_subscribe_frame (c : Ptr) (entries : List (Topic × Byte)) :
    ∀ st : State,
      (entries.foldl (fun s e => subscribe e.1 c s) st).broker.clients = st.broker.clients
        ∧ ∀ p, p ≠ c → (entries.foldl (fun s e => subscribe e.1 c s) st).heap p = st.heap p := by
  induction entries with
  | nil => intro st; exact ⟨rfl, fun _ _ => rfl⟩
  | cons e es ih =>
    intro st
    obtain ⟨h1, h2⟩ := ih (subscribe e.1 c st)
    refine ⟨h1, fun p hp => ?_⟩
    rw [List.foldl_cons, h2 p hp]
    simp [subscribe, Function.update, hp]

/-- C7 as the code has it: when, after k ≥ 0 complete entries, an entry declares
a topic length L such that the topic and its QoS byte do not fit into the bytes
left (at most L bytes follow the length field), `handleSubscribe` does not drop
the packet but stops at that entry and returns normally. The subscribers map,
the topic sets and the log are those reached by calling `subscribe` for the
client on the topics of the k entries before the bad one, in body order, and on
nothing else; the clients map and the records of all other clients are as they
were. What is written to the client's own connection is not stated here. -/
theorem handleSubscribe_stops_at_unfitting_entry (c : Ptr) (st : State) (id0 id1 : Byte)
    (entries : List (Topic × Byte)) (hi lo : Byte) (rest : List Byte)
    (hfit : ∀ e ∈ entries, e.1.length < 65536)
    (hbad : rest.length ≤ bigEndian16 hi lo) :
    ∃ s, handleSubscribe c (subscribeBody id0 id1 entries ++ hi :: lo :: rest) st = .ok s
      ∧ s.broker.subscribers
          = (entries.foldl (fun s e => subscribe e.1 c s)
              (st.printf .handlingSubscribe)).broker.subscribers
      ∧ (∀ p, (s.heap p).topics
          = ((entries.foldl (fun s e => subscribe e.1 c s)
              (st.printf .handlingSubscribe)).heap p).topics)
      ∧ s.log
          = (entries.foldl (fun s e => subscribe e.1 c s) (st.printf .handlingSubscribe)).log
      ∧ s.broker.clients = st.broker.clients
      ∧ (∀ p, p ≠ c → s.heap p = st.heap p) := by
  have hbody : subscribeBody id0 id1 entries ++ hi :: lo :: rest
      = [id0, id1] ++ (encodeEntries entries ++ hi :: lo :: rest) := by
    simp [subscribeBody]
  have hrun : handleSubscribe c ([id0, id1] ++ (encodeEntries entries ++ hi :: lo :: rest)) st
      = .ok (connWrite c [0x90, 0x03, id0, id1, 0x00]
          (entries.foldl (fun s e => subscribe e.1 c s) (st.printf .handlingSubscribe))).1 := by
    refine handleSubscribe_entries_then_stop c st id0 id1 entries (hi :: lo :: rest) hfit ?_ ?_
    · simp only [List.length_append, List.length_cons, List.length_nil]; omega
    · intro fuel s
      have h := handleSubscribeLoop_unfitting c ([id0, id1] ++ encodeEntries entries) hi lo rest
        fuel s hbad
      rw [List.append_assoc] at h
      exact h
  obtain ⟨hclients, hheap⟩ := foldl_subscribe_frame c entries (st.printf .handlingSubscribe)
  rw [hbody]
  refine ⟨_, hrun, rfl, ?_, rfl, hclients, ?_⟩
  · intro p
    by_cases hp : p = c
    · subst hp; simp [connWrite]
    · simp [connWrite, Function.update, hp]
  · intro p hp
    have h := hheap p hp
    simp only [connWrite, Function.update, hp, dite_false]
    exact h

/-- Witness of the amended C7: the entry "a" is followed by an entry that
declares five topic bytes where one byte is left; client 0 ends subscribed to
"a" only. -/
theorem handleSubscribe_stops_at_unfitting_entry_witness :
    ∃ s, handleSubscribe 0 (subscribeBody 0x00 0x01 [(ascii "a", 0)] ++ [0x00, 0x05, 0x62])
          (addClient 0 (boot scenarioIds [])) = .ok s
      ∧ s.broker.subscribers (ascii "a") = some [0]
      ∧ s.broker.subscribers [0x62] = none
      ∧ (s.heap 0).topics = [ascii "a"] := by
  obtain ⟨s, hs, hsubs, htopics, _, _, _⟩ :=
    handleSubscribe_stops_at_unfitting_entry 0 (addClient 0 (boot scenarioIds [])) 0x00 0x01
      [(ascii "a", 0)] 0x00 0x05 [0x62] (by decide) (by decide)
  refine ⟨s, hs, ?_, ?_, ?_⟩
  · rw [hsubs]; decide
  · rw [hsubs]; decide
  · rw [htopics 0]; decide

/-- C7 as stated fails: in the body 0x00 0x01, entry "a", then 0x00 0x05 0x62
the second entry declares five topic bytes and one byte is left. The packet
is not dropped: client 0, which had no subscription and an unused connection,
is subscribed to "a" and receives the SUBACK. -/
theorem handleSubscribe_unfitting_not_dropped :
    ∃ st, handleSubscribe 0 (subscribeBody 0x00 0x01 [(ascii "a", 0)] ++ [0x00, 0x05, 0x62])
          (addClient 0 (boot scenarioIds [])) = .ok st
      ∧ [(0x62 : Byte)].length < bigEndian16 0x00 0x05
      ∧ (addClient 0 (boot scenarioIds [])).broker.subscribers (ascii "a") = none
      ∧ st.broker.subscribers (ascii "a") = some [0]
      ∧ ((addClient 0 (boot scenarioIds [])).heap 0).topics = []
      ∧ (st.heap 0).topics = [ascii "a"]
      ∧ ((addClient 0 (boot scenarioIds [])).heap 0).conn.written = []
      ∧ (st.heap 0).conn.written = [[0x90, 0x03, 0x00, 0x01, 0x00]] :=
  ⟨_, rfl, by decide, by decide, by decide, by decide, by decide, by decide, by decide⟩

/-! ## Fan-out -/

/-- The function `removeClient` closes a connection and edits the maps; it changes no
identifier, no `broken` flag and no record of written packets. -/
theorem removeClient_heap (clientID : String) (st : State) (p : Ptr) :
    ((removeClient clientID st).heap p).conn.written = (st.heap p).conn.written
      ∧ ((removeClient clientID st).heap p).conn.broken = (st.heap p).conn.broken
      ∧ ((removeClient clientID st).heap p).clientID = (st.heap p).clientID := by
  unfold removeClient
  split
  · rename_i client _
    by_cases h : p = client
    · subst h; simp [Conn.Close]
    · simp [Function.update, h]
  · simp

theorem removeClient_clients_self (clientID : String) (st : State) :
    (removeClient clientID st).broker.clients clientID = none := by
  unfold removeClient
  split
  · simp
  · rename_i h; simpa using h

theorem removeClient_clients_none (clientID id : String) (st : State)
    (h : st.broker.clients id = none) :
    (removeClient clientID st).broker.clients id = none := by
  unfold removeClient
  split
  · by_cases e : id = clientID
    · subst e; simp
    · simp [Function.update, e, h]
  · exact h

/-- One goroutine of the fan-out records one write, on the connection of its
own subscriber. -/
theorem deliver_written (topic : Topic) (payload : List Byte) (c : Ptr) (st : State) (p : Ptr) :
    ((deliver topic payload c st).heap p).conn.written
      = (st.heap p).conn.written ++ (if p = c then [publishPacket topic payload] else []) := by
  have hw : (((sendPublish c topic payload st).1).heap p).conn.written
      = (st.heap p).conn.written ++ (if p = c then [publishPacket topic payload] else []) := by
    by_cases h : p = c
    · subst h; simp [sendPublish, connWrite, Conn.Write]
    · simp [sendPublish, connWrite, Function.update, h]
  unfold deliver
  by_cases herr : (sendPublish c topic payload st).2 = true
  · simp only [herr, if_true]
    rw [(removeClient_heap _ _ p).1]
    exact hw
  · simp only [herr]
    exact hw

theorem deliver_heap (topic : Topic) (payload : List Byte) (c : Ptr) (st : State) (p : Ptr) :
    ((deliver topic payload c st).heap p).conn.broken = (st.heap p).conn.broken
      ∧ ((deliver topic payload c st).heap p).clientID = (st.heap p).clientID := by
  have hw : (((sendPublish c topic payload st).1).heap p).conn.broken = (st.heap p).conn.broken
      ∧ (((sendPublish c topic payload st).1).heap p).clientID = (st.heap p).clientID := by
    by_cases h : p = c
    · subst h; simp [sendPublish, connWrite, Conn.Write]
    · simp [sendPublish, connWrite, Function.update, h]
  unfold deliver
  by_cases herr : (sendPublish c topic payload st).2 = true
  · simp only [herr, if_true]
    rw [(removeClient_heap _ _ p).2.1, (removeClient_heap _ _ p).2.2]
    exact hw
  · simp only [herr]
    exact hw

theorem deliver_clients_none (topic : Topic) (payload : List Byte) (c : Ptr) (st : State)
    (id : String) (h : st.broker.clients id = none) :
    (deliver topic payload c st).broker.clients id = none := by
  unfold deliver
  by_cases herr : (sendPublish c topic payload st).2 = true
  · simp only [herr, if_true]
    exact removeClient_clients_none _ _ _ h
  · simp only [herr]
    exact h

/-- The goroutine of a subscriber whose connection is broken ends with
nothing registered under that subscriber's identifier. -/
theorem deliver_broken (topic : Topic) (payload : List Byte) (c : Ptr) (st : State)
    (h : (st.heap c).conn.broken = true) :
    (deliver topic payload c st).broker.clients (st.heap c).clientID = none := by
  have herr : (sendPublish c topic payload st).2 = true := by
    simp [sendPublish, connWrite, Conn.Write, h]
  have hid : (((sendPublish c topic payload st).1).heap c).clientID = (st.heap c).clientID := by
    simp [sendPublish, connWrite]
  unfold deliver
  simp only [herr, if_true, hid]
  exact removeClient_clients_self _ _

theorem fanOut_cons (topic : Topic) (payload : List Byte) (c : Ptr) (order : List Ptr)
    (st : State) :
    fanOut topic payload (c :: order) st
      = fanOut topic payload order (deliver topic payload c st) := rfl

/-- The fan-out records on every connection one write of the PUBLISH packet
per occurrence of the connection in the order of delivery. -/
theorem fanOut_written (topic : Topic) (payload : List Byte) (order : List Ptr) (p : Ptr) :
    ∀ st : State, ((fanOut topic payload order st).heap p).conn.written
      = (st.heap p).conn.written
          ++ List.replicate (order.count p) (publishPacket topic payload) := by
  induction order with
  | nil => intro st; simp [fanOut]
  | cons c order ih =>
    intro st
    rw [fanOut_cons, ih, deliver_written]
    by_cases h : p = c
    · subst h; simp [List.replicate_succ]
    · have hc : ¬ (c = p) := fun e => h e.symm
      simp [h, hc, List.count_cons]

theorem fanOut_clients_none (topic : Topic) (payload : List Byte) (order : List Ptr)
    (id : String) :
    ∀ st : State, st.broker.clients id = none →
      (fanOut topic payload order st).broker.clients id = none := by
  induction order with
  | nil => intro st h; exact h
  | cons c order ih =>
    intro st h
    rw [fanOut_cons]
    exact ih _ (deliver_clients_none topic payload c st id h)

theorem fanOut_broken (topic : Topic) (payload : List Byte) (order : List Ptr) (a : Ptr) :
    ∀ st : State, a ∈ order → (st.heap a).conn.broken = true →
      (fanOut topic payload order st).broker.clients (st.heap a).clientID = none := by
  induction order with
  | nil => intro st h; simp at h
  | cons c order ih =>
    intro st hmem hbroken
    rw [fanOut_cons]
    by_cases h : a = c
    · subst h
      exact fanOut_clients_none topic payload order _ _ (deliver_broken topic payload a st hbroken)
    · have hmem2 : a ∈ order := by
        rcases List.mem_cons.1 hmem with e | e
        · exact absurd e h
        · exact e
      have hd := deliver_heap topic payload c st a
      have := ih (deliver topic payload c st) hmem2 (hd.1.trans hbroken)
      rw [hd.2] at this
      exact this

/-- In the schedule of `publish`, where every goroutine runs after the loop has
read the slice: when the subscriber list of T holds each connection at most
once, exactly one write is recorded on the connection of every subscriber of T
and none on any other connection, the write being the packet of `sendPublish`
for (T, payload), whichever writes fail and in whichever order the goroutines
then run. Nothing stays registered under the identifier of a subscriber whose
connection is broken. -/
theorem publish_after_loop_writes_once (st : State) (topic : Topic) (payload : List Byte)
    (hnodup : (lookupSubscribers st.broker.subscribers topic).Nodup) :
    (∀ p, ((publish topic payload st).heap p).conn.written
        = (st.heap p).conn.written
            ++ (if p ∈ lookupSubscribers st.broker.subscribers topic
                then [publishPacket topic payload] else []))
    ∧ (∀ a ∈ lookupSubscribers st.broker.subscribers topic, (st.heap a).conn.broken = true →
        (publish topic payload st).broker.clients (st.heap a).clientID = none)
    ∧ (∀ order : List Ptr, order.Perm (lookupSubscribers st.broker.subscribers topic) →
        ∀ p, ((fanOut topic payload order (st.printf (.publishing topic payload))).heap p).conn.written
          = (st.heap p).conn.written
              ++ (if p ∈ lookupSubscribers st.broker.subscribers topic
                  then [publishPacket topic payload] else [])) := by
  have hperm : ∀ order : List Ptr, order.Perm (lookupSubscribers st.broker.subscribers topic) →
      ∀ p, ((fanOut topic payload order (st.printf (.publishing topic payload))).heap p).conn.written
        = (st.heap p).conn.written
            ++ (if p ∈ lookupSubscribers st.broker.subscribers topic
                then [publishPacket topic payload] else []) := by
    intro order hp p
    rw [fanOut_written, hp.count_eq]
    by_cases hmem : p ∈ lookupSubscribers st.broker.subscribers topic
    · rw [List.count_eq_one_of_mem hnodup hmem]
      simp [hmem, State.printf]
    · rw [List.count_eq_zero_of_not_mem hmem]
      simp [hmem, State.printf]
  refine ⟨?_, ?_, hperm⟩
  · intro p
    by_cases hempty : (lookupSubscribers st.broker.subscribers topic).length = 0
    · have hnil : lookupSubscribers st.broker.subscribers topic = [] :=
        List.length_eq_zero.1 hempty
      simp [publish, hnil, State.printf]
    · have h := hperm _ (List.Perm.refl _) p
      simpa [publish, hempty] using h
  · intro a hmem hbroken
    by_cases hempty : (lookupSubscribers st.broker.subscribers topic).length = 0
    · rw [List.length_eq_zero.1 hempty] at hmem
      simp at hmem
    · have h := fanOut_broken topic payload (lookupSubscribers st.broker.subscribers topic) a
        (st.printf (.publishing topic payload)) hmem hbroken
      simpa [publish, hempty, State.printf] using h

/-- Two instances in the schedule of `publish`. With client 0 subscribed to
"LightControl", `publish("LightControl", "ON")` writes to it the bytes
0x30 0x10 0x00 0x0C "LightControl" "ON" and nothing else. With clients 0 and 1
subscribed to "T" and the connection of client 0 broken, client 1 gets its one
packet and nothing is registered under the identifier of client 0. -/
theorem publish_after_loop_instances :
    ((publish (ascii "LightControl") (ascii "ON") lightControlState).heap 0).conn.written
        = [[0x30, 0x10, 0x00, 0x0C] ++ ascii "LightControl" ++ ascii "ON"]
    ∧ ((publish (ascii "T") (ascii "ON") twoSubscribersState).heap 1).conn.written
        = [publishPacket (ascii "T") (ascii "ON")]
    ∧ (publish (ascii "T") (ascii "ON") twoSubscribersState).broker.clients "client_1700000000"
        = none :=
  ⟨((publish_after_loop_writes_once lightControlState (ascii "LightControl") (ascii "ON")
      (by decide)).1 0).trans (by decide),
   ((publish_after_loop_writes_once twoSubscribersState (ascii "T") (ascii "ON")
      (by decide)).1 1).trans (by decide),
   (publish_after_loop_writes_once twoSubscribersState (ascii "T") (ascii "ON")
      (by decide)).2.1 0 (by decide) (by decide)⟩

/-- C10 (the code does not do this): clients 0, 1 and 2 are subscribed once each
to "T", in this order, and the connection of client 0 is broken. `publish("T",
"ON")` starts the goroutine of client 0, whose write fails and which calls
`removeClient`; `removeSubscription` then moves the cells of the slice that the
loop is still reading, which hold 1, 2, 2 afterwards. The loop goes on to
clients 2 and 2: one write is attempted on client 0, none on client 1, two on
client 2. With the single subscriber of "LightControl" the bytes written are
0x30 0x10 0x00 0x0C "LightControl" "ON". -/
theorem publishEager_skips_subscriber :
    lookupSubscribers threeSubscribersState.broker.subscribers (ascii "T") = [0, 1, 2]
    ∧ cellsAfterDeliver (ascii "T") (ascii "ON") 0
        (threeSubscribersState.printf (.publishing (ascii "T") (ascii "ON"))) [0, 1, 2]
        = [1, 2, 2]
    ∧ ((publishEager (ascii "T") (ascii "ON") threeSubscribersState).heap 0).conn.written
        = [publishPacket (ascii "T") (ascii "ON")]
    ∧ ((publishEager (ascii "T") (ascii "ON") threeSubscribersState).heap 1).conn.written = []
    ∧ ((publishEager (ascii "T") (ascii "ON") threeSubscribersState).heap 2).conn.written
        = [publishPacket (ascii "T") (ascii "ON"), publishPacket (ascii "T") (ascii "ON")]
    ∧ ((publishEager (ascii "LightControl") (ascii "ON") lightControlState).heap 0).conn.written
        = [[0x30, 0x10, 0x00, 0x0C] ++ ascii "LightControl" ++ ascii "ON"] := by
  decide

/-- A goroutine whose write succeeds only records the write: it calls no
`removeClient` and leaves the cells alone. -/
theorem deliver_of_write_ok (topic : Topic) (payload : List Byte) (c : Ptr) (st : State)
    (cells : List Ptr)
    (h : (st.heap c).conn.broken = false ∧ (st.heap c).conn.closes = 0) :
    deliver topic payload c st = (sendPublish c topic payload st).1
      ∧ cellsAfterDeliver topic payload c st cells = cells := by
  have herr : (sendPublish c topic payload st).2 = false := by
    simp [sendPublish, connWrite, Conn.Write, h.1, h.2]
  simp [deliver, cellsAfterDeliver, herr]

theorem sendPublish_flags (topic : Topic) (payload : List Byte) (c : Ptr) (st : State) (p : Ptr) :
    (((sendPublish c topic payload st).1).heap p).conn.broken = (st.heap p).conn.broken
      ∧ (((sendPublish c topic payload st).1).heap p).conn.closes = (st.heap p).conn.closes := by
  by_cases h : p = c
  · subst h; simp [sendPublish, connWrite, Conn.Write]
  · simp [sendPublish, connWrite, Function.update, h]

/-- As long as every write succeeds, the loop that runs each goroutine at once
does what the goroutines do when they run after the loop. -/
theorem rangeEager_eq_fanOut (topic : Topic) (payload : List Byte) (cells : List Ptr) :
    ∀ (remaining j : Nat) (st : State),
      (∀ c ∈ cells, (st.heap c).conn.broken = false ∧ (st.heap c).conn.closes = 0) →
      j + remaining = cells.length →
      rangeEager topic payload remaining j cells st = fanOut topic payload (cells.drop j) st := by
  intro remaining
  induction remaining with
  | zero =>
    intro j st _ hj
    have : cells.drop j = [] := List.drop_eq_nil_of_le (by omega)
    simp [rangeEager, this, fanOut]
  | succ remaining ih =>
    intro j st hok hj
    have hlt : j < cells.length := by omega
    have hget : cells[j]? = some cells[j] := List.getElem?_eq_getElem hlt
    have hdrop : cells.drop j = cells[j] :: cells.drop (j + 1) := List.drop_eq_getElem_cons hlt
    have hmem : cells[j] ∈ cells := List.getElem_mem hlt
    obtain ⟨hd, hc⟩ := deliver_of_write_ok topic payload cells[j] st cells (hok _ hmem)
    rw [rangeEager, hget, hdrop, fanOut_cons]
    simp only [hc]
    refine ih (j + 1) _ ?_ (by omega)
    intro c hcmem
    rw [hd, (sendPublish_flags topic payload _ st c).1, (sendPublish_flags topic payload _ st c).2]
    exact hok c hcmem

/-- When no write to a subscriber of the topic can fail, the two schedules of
`publish` give the same state. -/
theorem publishEager_eq_publish_of_writes_ok (st : State) (topic : Topic) (payload : List Byte)
    (hok : ∀ c ∈ lookupSubscribers st.broker.subscribers topic,
      (st.heap c).conn.broken = false ∧ (st.heap c).conn.closes = 0) :
    publishEager topic payload st = publish topic payload st := by
  unfold publishEager publish
  by_cases hempty : (lookupSubscribers st.broker.subscribers topic).length = 0
  · simp [hempty]
  · simp only [hempty, if_false]
    have h := rangeEager_eq_fanOut topic payload (lookupSubscribers st.broker.subscribers topic)
      (lookupSubscribers st.broker.subscribers topic).length 0
      (st.printf (.publishing topic payload)) hok (by omega)
    simpa using h

/-! ## Publishing on a topic without entry -/

/-- C11: when the topic has no entry in the subscribers map, `publish` leaves
every client record (connection, with its written packets, and topic set),
the clients map and the subscribers map as they were; its only effect is the
log line "No subscribers". -/
theorem publish_without_entry (st : State) (topic : Topic) (payload : List Byte)
    (h : st.broker.subscribers topic = none) :
    (publish topic payload st).heap = st.heap
      ∧ (publish topic payload st).broker.clients = st.broker.clients
      ∧ (publish topic payload st).broker.subscribers = st.broker.subscribers
      ∧ (publish topic payload st).log = st.log ++ [.noSubscribers topic] := by
  simp [publish, lookupSubscribers, h, State.printf]

/-- Witness of C11: client 0 subscribes to "X" and is removed; a publish on "X"
then changes nothing but the log. -/
theorem publish_without_entry_witness :
    (publish (ascii "X") (ascii "ON")
        (removeClient "client_1700000000"
          (subscribe (ascii "X") 0 (addClient 0 (boot scenarioIds []))))).heap
      = (removeClient "client_1700000000"
          (subscribe (ascii "X") 0 (addClient 0 (boot scenarioIds [])))).heap :=
  (publish_without_entry
    (removeClient "client_1700000000"
      (subscribe (ascii "X") 0 (addClient 0 (boot scenarioIds []))))
    (ascii "X") (ascii "ON") (by decide)).1

/-! ## The dispatch -/

/-- C15: for a first byte whose type nibble is none of 1, 3, 8, 12 and 14, and
for every body, the `switch` of `handleConnection` returns the state as it was
(no write, no change of a registry, no log line) and the loop goes on. -/
theorem dispatch_unrecognized (c : Ptr) (firstByte : Byte) (packet : List Byte) (st : State)
    (h : msgTypeOf firstByte ∉ [1, 3, 8, 12, 14]) :
    dispatch c (msgTypeOf firstByte) packet st = .ok (st, .next) := by
  simp only [List.mem_cons, List.mem_singleton, List.not_mem_nil, or_false, not_or] at h
  obtain ⟨h1, h3, h8, h12, h14⟩ := h
  simp [dispatch, CONNECT, PUBLISH, SUBSCRIBE, PINGREQ, DISCONNECT, h1, h3, h8, h12, h14]

/-- Witness of C15: the first byte 0xA2 of an UNSUBSCRIBE packet, type 10. -/
theorem dispatch_unrecognized_witness :
    dispatch 0 (msgTypeOf 0xA2) [0x00, 0x01, 0x00, 0x01, 0x61] (addClient 0 (boot scenarioIds []))
      = .ok (addClient 0 (boot scenarioIds []), .next) :=
  dispatch_unrecognized 0 0xA2 [0x00, 0x01, 0x00, 0x01, 0x61] (addClient 0 (boot scenarioIds []))
    (by decide)

/-- C16: for every CONNECT body `handleConnect` records on the connection of
its client one write, of the bytes 0x20 0x02 0x00 0x00, and `handlePingReq` one
write of 0xD0 0x00; no other connection is written to, and both maps and all
topic sets stay as they were. The length field 0x02 announces the two bytes
that follow it, the length field 0x00 none. -/
theorem handleConnect_handlePingReq_spec (c : Ptr) (packet : List Byte) (st : State) :
    (∀ p, ((handleConnect c packet st).heap p).conn.written
        = (st.heap p).conn.written ++ (if p = c then [[0x20, 0x02, 0x00, 0x00]] else []))
      ∧ (handleConnect c packet st).broker.clients = st.broker.clients
      ∧ (handleConnect c packet st).broker.subscribers = st.broker.subscribers
      ∧ (∀ p, ((handleConnect c packet st).heap p).topics = (st.heap p).topics)
      ∧ readRemainingLength [0x02, 0x00, 0x00] = (.ok [(0x00 : Byte), 0x00].length, [0x00, 0x00])
      ∧ (∀ p, ((handlePingReq c st).heap p).conn.written
        = (st.heap p).conn.written ++ (if p = c then [[0xD0, 0x00]] else []))
      ∧ (handlePingReq c st).broker.clients = st.broker.clients
      ∧ (handlePingReq c st).broker.subscribers = st.broker.subscribers
      ∧ (∀ p, ((handlePingReq c st).heap p).topics = (st.heap p).topics)
      ∧ readRemainingLength [0x00] = (.ok ([] : List Byte).length, []) := by
  refine ⟨?_, rfl, rfl, ?_, by decide, ?_, rfl, rfl, ?_, by decide⟩
  · intro p
    by_cases h : p = c
    · subst h; simp [handleConnect, connWrite, Conn.Write, State.printf]
    · simp [handleConnect, connWrite, State.printf, Function.update, h]
  · intro p
    by_cases h : p = c
    · subst h; simp [handleConnect, connWrite, State.printf]
    · simp [handleConnect, connWrite, State.printf, Function.update, h]
  · intro p
    by_cases h : p = c
    · subst h; simp [handlePingReq, connWrite, Conn.Write]
    · simp [handlePingReq, connWrite, Function.update, h]
  · intro p
    by_cases h : p = c
    · subst h; simp [handlePingReq, connWrite]
    · simp [handlePingReq, connWrite, Function.update, h]

/-! ## Removing a client twice -/

/-- C18: a second `removeClient(id)` right after a first one returns the state
of the first (maps, topic sets, connections and their `Close` counts, log), and
`removeClient(id)` for an identifier that is not a key of the clients map
returns the state it was given. -/
theorem removeClient_idempotent (st : State) (clientID : String) :
    removeClient clientID (removeClient clientID st) = removeClient clientID st
      ∧ (st.broker.clients clientID = none → removeClient clientID st = st) := by
  have hnone : ∀ s : State, s.broker.clients clientID = none → removeClient clientID s = s := by
    intro s h
    simp [removeClient, h]
  exact ⟨hnone _ (removeClient_clients_self clientID st), hnone st⟩

/-- Witness of C18: no client is registered at a new broker. -/
theorem removeClient_idempotent_witness :
    (removeClient "client_1700000000" (boot scenarioIds [])).log = [] :=
  congrArg State.log
    ((removeClient_idempotent (boot scenarioIds []) "client_1700000000").2 (by decide))

/-! ## Identifiers -/

/-- C12 (the code does not do this): two connections accepted in the same
second, 1700000000, at the addresses 0 and 1. After the first accept client 0
is registered under "client_1700000000". The second client gets the same
identifier and takes the place of the first in the clients map; when the
handler of client 0 ends and calls `removeClient` with its identifier, it is the
connection of client 1 that is closed. -/
theorem accept_same_second_same_clientID :
    (accept 1700000000 freshConn 0 (boot scenarioIds [])).broker.clients "client_1700000000"
        = some 0
    ∧ ((accept 1700000000 freshConn 1
          (accept 1700000000 freshConn 0 (boot scenarioIds []))).heap 0).clientID
        = "client_1700000000"
    ∧ ((accept 1700000000 freshConn 1
          (accept 1700000000 freshConn 0 (boot scenarioIds []))).heap 1).clientID
        = "client_1700000000"
    ∧ (accept 1700000000 freshConn 1
          (accept 1700000000 freshConn 0 (boot scenarioIds []))).broker.clients
          "client_1700000000" = some 1
    ∧ ((removeClient "client_1700000000"
          (accept 1700000000 freshConn 1
            (accept 1700000000 freshConn 0 (boot scenarioIds [])))).heap 1).conn.closes = 1
    ∧ ((removeClient "client_1700000000"
          (accept 1700000000 freshConn 1
            (accept 1700000000 freshConn 0 (boot scenarioIds [])))).heap 0).conn.closes = 0 := by
  decide

/-! ## The slice that `publish` iterates -/

/-- The cells and the list view agree on what `removeSubscription` stores in
the map: the window of the new length on the cells is the old list without
the first entry equal to the client. -/
theorem removeSubscriptionInPlace_list_view (client : Ptr) (array : List Ptr) :
    (removeSubscriptionInPlace client array array.length).1.take
        (removeSubscriptionInPlace client array array.length).2
      = array.erase client := by
  unfold removeSubscriptionInPlace
  simp only [List.take_length]
  by_cases h : array.indexOf client < array.length
  · have hlen : (array.take (array.indexOf client)
        ++ array.drop (array.indexOf client + 1)).length = array.length - 1 := by
      simp only [List.length_append, List.length_take, List.length_drop]
      omega
    simp only [h, if_true, cutInPlace, List.take_length]
    rw [← hlen, List.take_left, ← List.eraseIdx_eq_take_drop_succ,
      List.eraseIdx_indexOf_eq_erase]
  · simp only [h, if_false, List.take_length]
    have hmem : client ∉ array := fun hm => h (List.indexOf_lt_length.2 hm)
    exact (List.erase_of_not_mem hmem).symm

/-- C17 (the code does not do this): `publish` has read the slice [0, 1, 2] and
its loop has started the goroutine of client 0 when `removeSubscription` for
client 0 runs. The cut is made in the cells the loop is reading, which then
hold 1, 2, 2, so the loop goes on with clients 2 and 2: client 1 is skipped
and client 2 is visited twice. The slice stored in the map is [1, 2], as in
the list view of `removeSubscription`. -/
theorem rangeWithRemoval_skips_and_repeats :
    removeSubscriptionInPlace 0 [0, 1, 2] 3 = ([1, 2, 2], 2)
    ∧ ([1, 2, 2] : List Ptr).take 2 = [0, 1, 2].erase 0
    ∧ rangeWithRemoval [0, 1, 2] 1 0 = [0, 2, 2]
    ∧ (1 : Ptr) ∉ rangeWithRemoval [0, 1, 2] 1 0
    ∧ (rangeWithRemoval [0, 1, 2] 1 0).count 2 = 2 := by
  decide

/-! ## The lamp -/

theorem msgHandler_on_or_off (lightState payload : List Byte)
    (h : lightState = ascii "ON" ∨ lightState = ascii "OFF") :
    (msgHandler lightState payload).1 = ascii "ON"
      ∨ (msgHandler lightState payload).1 = ascii "OFF" := by
  unfold msgHandler
  dsimp only
  split_ifs with h1 h2
  · exact h
  · exact h1
  · exact h

theorem foldl_msgHandler_on_or_off (payloads : List (List Byte)) :
    ∀ lightState : List Byte, lightState = ascii "ON" ∨ lightState = ascii "OFF" →
      payloads.foldl (fun s payload => (msgHandler s payload).1) lightState = ascii "ON"
        ∨ payloads.foldl (fun s payload => (msgHandler s payload).1) lightState = ascii "OFF" := by
  induction payloads with
  | nil => intro s h; exact h
  | cons p ps ih =>
    intro s h
    exact ih _ (msgHandler_on_or_off s p h)

/-- C20: started with `lightState = "ON"`, the lamp has `lightState` equal to "ON"
or "OFF" after every sequence of payloads; from any value of `lightState`,
handling the payload "ON" or "OFF" makes `lightState` equal to the payload, and
handling any other payload leaves it as it was. -/
theorem msgHandler_lightState (payloads : List (List Byte)) (lightState payload : List Byte) :
    (lightStateAfter payloads = ascii "ON" ∨ lightStateAfter payloads = ascii "OFF")
      ∧ (payload = ascii "ON" ∨ payload = ascii "OFF" →
          (msgHandler lightState payload).1 = payload)
      ∧ (¬ (payload = ascii "ON" ∨ payload = ascii "OFF") →
          (msgHandler lightState payload).1 = lightState) := by
  refine ⟨foldl_msgHandler_on_or_off payloads _ (Or.inl rfl), ?_, ?_⟩
  · intro h
    unfold msgHandler
    dsimp only
    split_ifs with h2
    · rcases h2 with ⟨h3, h4⟩ | ⟨h3, h4⟩
      · exact h3.trans h4.symm
      · exact h3.trans h4.symm
    · rfl
  · intro h
    simp [msgHandler, h]

/-- Witness of C20: after "OFF", "50", "ON", "100" the lamp is "ON"; "OFF" turns
a lamp that is "ON" to "OFF", and "50" leaves it "ON". -/
theorem msgHandler_lightState_witness :
    (lightStateAfter [ascii "OFF", ascii "50", ascii "ON", ascii "100"] = ascii "ON"
        ∨ lightStateAfter [ascii "OFF", ascii "50", ascii "ON", ascii "100"] = ascii "OFF")
      ∧ (msgHandler (ascii "ON") (ascii "OFF")).1 = ascii "OFF"
      ∧ (msgHandler (ascii "ON") (ascii "50")).1 = ascii "ON" :=
  ⟨(msgHandler_lightState [ascii "OFF", ascii "50", ascii "ON", ascii "100"]
      (ascii "ON") (ascii "OFF")).1,
   (msgHandler_lightState [] (ascii "ON") (ascii "OFF")).2.1 (by decide),
   (msgHandler_lightState [] (ascii "ON") (ascii "50")).2.2 (by decide)⟩

/-! ## The handlers stay inside the packet -/

theorem index_of_lt {packet : List Byte} {i : Nat} (h : i < packet.length) :
    ∃ b, index packet i = .ok b :=
  ⟨packet.get ⟨i, h⟩, by simp [index, List.getElem?_eq_getElem h]⟩

theorem slice_of_le {packet : List Byte} {lo hi : Nat} (h1 : lo ≤ hi) (h2 : hi ≤ packet.length) :
    slice packet lo hi = .ok ((packet.drop lo).take (hi - lo)) := by
  simp [slice, h1, h2]

theorem handlePublish_returns (packet : List Byte) (st : State) :
    ∃ s, handlePublish packet st = .ok s := by
  unfold handlePublish
  by_cases h2 : packet.length < 2
  · exact ⟨st, by simp [h2]⟩
  · obtain ⟨b0, hb0⟩ := index_of_lt (show 0 < packet.length by omega)
    obtain ⟨b1, hb1⟩ := index_of_lt (show 1 < packet.length by omega)
    simp only [h2, if_false, hb0, hb1, Except.bind]
    generalize b0.val <<< 8 ||| b1.val = topicLen
    by_cases hfit : packet.length < 2 + topicLen
    · exact ⟨st, by simp only [hfit, if_true]⟩
    · have hle : 2 + topicLen ≤ packet.length := by omega
      simp only [hfit, if_false, slice_of_le (Nat.le_add_right 2 _) hle, sliceFrom, hle,
        if_true]
      exact ⟨_, rfl⟩

/-- With a budget above the distance to the end of the packet the loop ends
by itself: every pass that does not leave the loop moves the position on. -/
theorem handleSubscribeLoop_returns (c : Ptr) (packet : List Byte) :
    ∀ (fuel pos : Nat) (st : State), 0 < fuel → packet.length < fuel + pos →
      ∃ s, handleSubscribeLoop c packet fuel pos st = .ok s := by
  intro fuel
  induction fuel with
  | zero => intro pos st h; omega
  | succ fuel ih =>
    intro pos st _ hfuel
    rw [handleSubscribeLoop]
    by_cases hpos : pos < packet.length
    · by_cases hbrk : pos + 2 ≥ packet.length
      · exact ⟨st, by simp only [hpos, if_true, hbrk]⟩
      · obtain ⟨hi, hhi⟩ := index_of_lt hpos
        obtain ⟨lo, hlo⟩ := index_of_lt (show pos + 1 < packet.length by omega)
        simp only [hpos, if_true, hbrk, if_false, hhi, hlo, Except.bind]
        generalize hi.val <<< 8 ||| lo.val = topicLen
        by_cases hbrk2 : pos + 2 + topicLen ≥ packet.length
        · exact ⟨st, by simp only [hbrk2, if_true]⟩
        · simp only [hbrk2, if_false,
            slice_of_le (Nat.le_add_right (pos + 2) topicLen)
              (show pos + 2 + topicLen ≤ packet.length by omega)]
          exact ih _ _ (by omega) (by omega)
    · exact ⟨st, by simp only [hpos, if_false]⟩

theorem handleSubscribe_returns (c : Ptr) (packet : List Byte) (st : State) :
    ∃ s, handleSubscribe c packet st = .ok s := by
  unfold handleSubscribe
  by_cases h4 : packet.length < 4
  · exact ⟨st.printf .handlingSubscribe, by simp only [h4, if_true]⟩
  · obtain ⟨s, hs⟩ := handleSubscribeLoop_returns c packet packet.length 2
      (st.printf .handlingSubscribe) (by omega) (by omega)
    obtain ⟨b0, hb0⟩ := index_of_lt (show 0 < packet.length by omega)
    obtain ⟨b1, hb1⟩ := index_of_lt (show 1 < packet.length by omega)
    simp only [h4, if_false, hs, hb0, hb1, Except.bind]
    exact ⟨_, rfl⟩

/-- C19: for every body, `handlePublish` and `handleSubscribe` return normally:
no index or slice expression leaves the body and the loop of `handleSubscribe`
ends within its budget of one pass per byte. The loop ends from every position
with every budget above the distance to the end of the body, because a pass
that does not leave the loop moves the position on. -/
theorem handlers_stay_in_range (c : Ptr) (packet : List Byte) (st : State) :
    (∃ s, handlePublish packet st = .ok s)
      ∧ (∃ s, handleSubscribe c packet st = .ok s)
      ∧ (∀ (fuel pos : Nat) (s : State), 0 < fuel → packet.length < fuel + pos →
          ∃ r, handleSubscribeLoop c packet fuel pos s = .ok r) :=
  ⟨handlePublish_returns packet st, handleSubscribe_returns c packet st,
    handleSubscribeLoop_returns c packet⟩

/-- Witness of C19: a SUBSCRIBE body whose only entry declares 65535 topic
bytes; the loop, started at position 2 with a budget of 4, returns. -/
theorem handlers_stay_in_range_witness :
    ∃ r, handleSubscribeLoop 0 [0x00, 0x01, 0xFF, 0xFF, 0x61] 4 2 (boot scenarioIds []) = .ok r :=
  (handlers_stay_in_range 0 [0x00, 0x01, 0xFF, 0xFF, 0x61] (boot scenarioIds [])).2.2
    4 2 (boot scenarioIds []) (by decide) (by decide)

/-! ## Invariants of the registries -/

theorem lookupSubscribers_update_same (subscribers : Topic → Option (List Ptr)) (topic : Topic)
    (v : Option (List Ptr)) :
    lookupSubscribers (Function.update subscribers topic v) topic = v.getD [] := by
  simp [lookupSubscribers]

theorem lookupSubscribers_update_ne (subscribers : Topic → Option (List Ptr)) {topic t : Topic}
    (v : Option (List Ptr)) (h : t ≠ topic) :
    lookupSubscribers (Function.update subscribers topic v) t = lookupSubscribers subscribers t := by
  simp [lookupSubscribers, Function.update, h]

/-- In the list view, `removeSubscription` takes the first entry equal to the
client out of the list under the topic and touches no other list. -/
theorem lookupSubscribers_removeSubscription (topic : Topic) (client : Ptr)
    (subscribers : Topic → Option (List Ptr)) (t : Topic) :
    lookupSubscribers (removeSubscription topic client subscribers) t
      = if t = topic then (lookupSubscribers subscribers topic).erase client
        else lookupSubscribers subscribers t := by
  unfold removeSubscription
  by_cases hmem : client ∈ lookupSubscribers subscribers topic
  · simp only [hmem, if_true, lookupSubscribers_update_same, Option.getD_some]
    by_cases hlen : ((lookupSubscribers subscribers topic).erase client).length = 0
    · simp only [hlen, if_true]
      by_cases e : t = topic
      · subst e
        simp only [lookupSubscribers_update_same, if_true, Option.getD_none,
          List.length_eq_zero.1 hlen]
      · simp only [lookupSubscribers_update_ne _ _ e, if_neg e]
    · simp only [hlen, if_false]
      by_cases e : t = topic
      · subst e
        simp only [lookupSubscribers_update_same, Option.getD_some, if_true]
      · simp only [lookupSubscribers_update_ne _ _ e, if_neg e]
  · simp only [hmem, if_false, List.erase_of_not_mem hmem]
    by_cases hlen : (lookupSubscribers subscribers topic).length = 0
    · simp only [hlen, if_true]
      by_cases e : t = topic
      · subst e
        simp only [lookupSubscribers_update_same, if_true, Option.getD_none,
          List.length_eq_zero.1 hlen]
      · simp only [lookupSubscribers_update_ne _ _ e, if_neg e]
    · simp only [hlen, if_false]
      by_cases e : t = topic
      · subst e; simp only [if_true]
      · simp only [if_neg e]

/-- After `removeSubscription` the topic it worked on is not bound to an empty
list, and no other binding has changed. -/
theorem removeSubscription_no_empty_entry (topic : Topic) (client : Ptr)
    (subscribers : Topic → Option (List Ptr)) (h : ∀ t, subscribers t ≠ some []) :
    ∀ t, removeSubscription topic client subscribers t ≠ some [] := by
  intro t
  unfold removeSubscription
  by_cases e : t = topic
  · subst e
    split_ifs with h1 h2 h2
    · simp
    · intro hc
      apply h2
      rw [lookupSubscribers, hc]
      rfl
    · simp
    · exact h t
  · split_ifs <;> simp [Function.update, e, h t]

theorem foldl_removeSubscription_no_empty_entry (client : Ptr) (topics : List Topic) :
    ∀ subscribers : Topic → Option (List Ptr), (∀ t, subscribers t ≠ some []) →
      ∀ t, topics.foldl (fun subs topic => removeSubscription topic client subs) subscribers t
        ≠ some [] := by
  induction topics with
  | nil => intro subscribers h; exact h
  | cons topic topics ih =>
    intro subscribers h
    exact ih _ (removeSubscription_no_empty_entry topic client subscribers h)

/-- The entries of the other clients survive the removal of one client. -/
theorem mem_foldl_removeSubscription (client q : Ptr) (hq : q ≠ client) (topics : List Topic) :
    ∀ (subscribers : Topic → Option (List Ptr)) (t : Topic),
      q ∈ lookupSubscribers
          (topics.foldl (fun subs topic => removeSubscription topic client subs) subscribers) t
        ↔ q ∈ lookupSubscribers subscribers t := by
  induction topics with
  | nil => intro subscribers t; exact Iff.rfl
  | cons topic topics ih =>
    intro subscribers t
    rw [List.foldl_cons, ih, lookupSubscribers_removeSubscription]
    by_cases e : t = topic
    · subst e; simp [List.mem_erase_of_ne hq]
    · simp [e]

/-- C13: in every state reached from a new broker by `addClient`, `subscribe`
and `removeClient`, no topic is bound to the empty subscriber list. -/
theorem reachable_no_empty_entry (st : State) (h : Reachable st) (topic : Topic) :
    st.broker.subscribers topic ≠ some [] := by
  revert topic
  induction h with
  | empty heap => intro topic; simp [NewBroker]
  | addClient client _ ih => intro topic; exact ih topic
  | subscribe t client _ ih =>
    intro topic
    by_cases e : topic = t
    · subst e; simp [subscribe]
    · simp [subscribe, Function.update, e, ih topic]
  | @removeClient st clientID _ ih =>
    intro topic
    unfold removeClient
    split
    · exact foldl_removeSubscription_no_empty_entry _ _ _ ih topic
    · exact ih topic

/-- Witness of C13: client 0 subscribes to "X" and is removed; "X" has no
entry afterwards. -/
theorem reachable_no_empty_entry_witness :
    (removeClient "client_1700000000"
        (subscribe (ascii "X") 0 (addClient 0 (boot scenarioIds [])))).broker.subscribers
        (ascii "X") ≠ some [] :=
  reachable_no_empty_entry _
    (Reachable.removeClient "client_1700000000"
      (Reachable.subscribe (ascii "X") 0
        (Reachable.addClient 0 (Reachable.empty (boot scenarioIds []).heap))))
    (ascii "X")

/-- Two facts that hold together in every state of a running broker: a client
is registered under its own identifier, and the topic set of a registered
client lists exactly the topics whose subscriber list holds the client. -/
theorem running_invariant (st : State) (h : Running st) :
    (∀ id p, st.broker.clients id = some p → (st.heap p).clientID = id)
      ∧ (∀ id p, st.broker.clients id = some p → ∀ topic,
          topic ∈ (st.heap p).topics ↔ p ∈ lookupSubscribers st.broker.subscribers topic) := by
  induction h with
  | start heap => simp [NewBroker]
  | @accept st now conn p _ hfresh ih =>
    obtain ⟨ih1, ih2⟩ := ih
    obtain ⟨hf1, hf2⟩ := hfresh
    have hclients : ∀ id q, (accept now conn p st).broker.clients id = some q →
        (id = clientIDAt now ∧ q = p) ∨ (q ≠ p ∧ st.broker.clients id = some q) := by
      intro id q hq
      by_cases e : id = clientIDAt now
      · subst e
        simp [accept, addClient] at hq
        exact Or.inl ⟨rfl, hq.symm⟩
      · simp [accept, addClient, Function.update, e] at hq
        exact Or.inr ⟨fun e2 => hf1 id (e2 ▸ hq), hq⟩
    constructor
    · intro id q hq
      rcases hclients id q hq with ⟨e1, e2⟩ | ⟨hne, hold⟩
      · subst e1; subst e2; simp [accept, addClient]
      · simpa [accept, addClient, Function.update, hne] using ih1 id q hold
    · intro id q hq topic
      rcases hclients id q hq with ⟨e1, e2⟩ | ⟨hne, hold⟩
      · subst e1; subst e2
        have := hf2 topic
        simp [accept, addClient, this]
      · simpa [accept, addClient, Function.update, hne] using ih2 id q hold topic
  | @subscribe st t p _ _ ih =>
    obtain ⟨ih1, ih2⟩ := ih
    constructor
    · intro id q hq
      have hold : st.broker.clients id = some q := hq
      by_cases e : q = p
      · subst e; simpa [subscribe] using ih1 id q hold
      · simpa [subscribe, Function.update, e] using ih1 id q hold
    · intro id q hq topic
      have hold : st.broker.clients id = some q := hq
      have hsubs : lookupSubscribers (subscribe t p st).broker.subscribers topic
          = if topic = t then lookupSubscribers st.broker.subscribers t ++ [p]
            else lookupSubscribers st.broker.subscribers topic := by
        by_cases e : topic = t
        · subst e; simp [subscribe, lookupSubscribers]
        · simp [subscribe, lookupSubscribers, Function.update, e]
      rw [hsubs]
      have hold2 := ih2 id q hold topic
      by_cases e : q = p
      · subst e
        by_cases e2 : topic = t
        · subst e2
          by_cases hin : topic ∈ (st.heap q).topics <;> simp [subscribe, hin]
        · by_cases hin : t ∈ (st.heap q).topics
          · simpa [subscribe, hin, e2] using hold2
          · simpa [subscribe, hin, e2] using hold2
      · by_cases e2 : topic = t
        · subst e2
          simpa [subscribe, Function.update, e] using hold2
        · simpa [subscribe, Function.update, e, e2] using hold2
  | @removeClient st clientID _ ih =>
    obtain ⟨ih1, ih2⟩ := ih
    cases hc : st.broker.clients clientID with
    | none =>
      have hsame : removeClient clientID st = st := by simp [removeClient, hc]
      rw [hsame]
      exact ⟨ih1, ih2⟩
    | some p =>
      have hclients : ∀ id q, (removeClient clientID st).broker.clients id = some q →
          q ≠ p ∧ st.broker.clients id = some q := by
        intro id q hq
        by_cases e : id = clientID
        · subst e; simp [removeClient, hc] at hq
        · simp [removeClient, hc, Function.update, e] at hq
          refine ⟨?_, hq⟩
          intro e2
          subst e2
          exact e ((ih1 id q hq).symm.trans (ih1 clientID q hc))
      constructor
      · intro id q hq
        obtain ⟨hne, hold⟩ := hclients id q hq
        simpa [removeClient, hc, Function.update, hne] using ih1 id q hold
      · intro id q hq topic
        obtain ⟨hne, hold⟩ := hclients id q hq
        have hsubs : q ∈ lookupSubscribers (removeClient clientID st).broker.subscribers topic
            ↔ q ∈ lookupSubscribers st.broker.subscribers topic := by
          simp only [removeClient, hc]
          exact mem_foldl_removeSubscription p q hne _ _ _
        rw [hsubs]
        simpa [removeClient, hc, Function.update, hne] using ih2 id q hold topic

/-- C14: in every state of a running broker (clients registered by `main` for
accepted connections, `subscribe` called for registered clients, `removeClient`
called with any identifier), for every client in the clients map and every
topic, the topic is in the topic set of the client exactly when the client
occurs in the subscriber list of the topic. -/
theorem topics_agree_with_subscribers (st : State) (h : Running st) (clientID : String)
    (p : Ptr) (hreg : st.broker.clients clientID = some p) (topic : Topic) :
    topic ∈ (st.heap p).topics ↔ p ∈ lookupSubscribers st.broker.subscribers topic :=
  (running_invariant st h).2 clientID p hreg topic

/-- Witness of C14: client 0 is accepted and subscribes to "LightControl". -/
theorem topics_agree_with_subscribers_witness :
    ascii "LightControl" ∈ ((subscribe (ascii "LightControl") 0
        (accept 1700000000 freshConn 0 (boot scenarioIds []))).heap 0).topics
      ↔ 0 ∈ lookupSubscribers (subscribe (ascii "LightControl") 0
          (accept 1700000000 freshConn 0 (boot scenarioIds []))).broker.subscribers
          (ascii "LightControl") :=
  topics_agree_with_subscribers _
    (Running.subscribe (ascii "LightControl") 0
      (Running.accept 1700000000 freshConn 0 (Running.start (boot scenarioIds []).heap)
        ⟨fun _ h => Option.noConfusion h, fun _ h => List.not_mem_nil _ h⟩)
      (by unfold Registered; decide))
    "client_1700000000" 0 (by decide) (ascii "LightControl")

end MqttBroker
